import Mathlib

/-!
Shallow embedding of `src/refresh_sheet.py` (Shopify → Google Sheets ETL).

Modelling conventions:
* Python/JSON values are the inductive `PyVal`.  Python floats are modelled
  exactly as rationals (`ℚ`); every decimal numeral occurring in the claims is
  exactly representable, and no claim depends on IEEE rounding, infinities or
  NaN payloads.
* Python exceptions that `refresh_sheet.py` does not catch are modelled with
  `Except String`; code wrapped in `try/except Exception` is total.
* Python `str` is Lean `String`; character-level work uses `List Char`
  (a Python string is a sequence of code points, as is `String.data`).
* Identifiers keep the Python names where Lean allows it.
-/

namespace RefreshSheet

/-- JSON-like Python values as they occur in Shopify's parsed JSON payload:
`None`, `bool`, `int`, `float` (modelled as an exact rational), `str`,
`list`, `dict` (insertion-ordered association list with distinct keys). -/
inductive PyVal where
  | pnone : PyVal
  | pbool : Bool → PyVal
  | pint : Int → PyVal
  | pnum : ℚ → PyVal
  | pstr : String → PyVal
  | plist : List PyVal → PyVal
  | pdict : List (String × PyVal) → PyVal

/-- Python truthiness (`bool(x)`): `None`, `False`, zero, empty string /
list / dict are falsy, everything else truthy. -/
def truthy : PyVal → Bool
  | .pnone => false
  | .pbool b => b
  | .pint n => n ≠ 0
  | .pnum q => q ≠ 0
  | .pstr s => s ≠ ""
  | .plist xs => !xs.isEmpty
  | .pdict d => !d.isEmpty

/-- Python `a or b` for the idiom `x.get(k) or default`. -/
def pyOr (a b : PyVal) : PyVal := if truthy a then a else b

/-- First-occurrence association-list lookup, Python `dict` access order. -/
def dictGet (d : List (String × PyVal)) (k : String) : Option PyVal :=
  match d with
  | [] => Option.none
  | kv :: rest => if kv.1 = k then some kv.2 else dictGet rest k

/-- Whitespace stripped by Python's `str.strip()` / `float()` / `int()`.
(ASCII whitespace plus the two non-breaking spaces the script manipulates;
other exotic Unicode spaces do not occur in the modelled data.) -/
def pyWs (c : Char) : Bool :=
  c = ' ' ∨ c = '\t' ∨ c = '\n' ∨ c = '\r' ∨ c = '\x0b' ∨ c = '\x0c' ∨
  c = ' ' ∨ c = ' '

/-- Strip `pyWs` from both ends of a character list. -/
def trimWs (cs : List Char) : List Char :=
  ((cs.dropWhile pyWs).reverse.dropWhile pyWs).reverse

/-- Python `str.strip()`. -/
def pyStrip (s : String) : String := ⟨trimWs s.data⟩

/-- The `str.lower()` (ASCII case folding; the matched names are ASCII). -/
def pyLower (s : String) : String := ⟨s.data.map Char.toLower⟩

/-- The `str.replace(a, b)` for single-character `a` and `b`: for one-character
patterns Python's substring replacement is exactly a character map. -/
def pyReplaceChar (s : String) (a b : Char) : String :=
  ⟨s.data.map fun c => if c = a then b else c⟩

/-- Numeric value of an ASCII digit. -/
def digitVal (c : Char) : Nat := c.toNat - 48

/-- Scan a run of decimal digits, optionally with single underscores that sit
between digits (CPython numeric literals accept `1_000`): returns the
accumulated value, the number of digits read, and the unread remainder.
An underscore not sandwiched between digits stops the scan.
`allowUS := false` gives the plain digit run used by the pandas parser. -/
def headDigit : List Char → Bool
  | d :: _ => d.isDigit
  | [] => false

def digitsAux (allowUS : Bool) : Nat → Nat → List Char → Nat × Nat × List Char
  | acc, cnt, [] => (acc, cnt, [])
  | acc, cnt, c :: cs =>
    if c.isDigit then digitsAux allowUS (10 * acc + digitVal c) (cnt + 1) cs
    else if c = '_' ∧ 0 < cnt ∧ allowUS ∧ headDigit cs then digitsAux allowUS acc cnt cs
    else (acc, cnt, c :: cs)

/-- Optional leading sign; returns (isNegative, rest). -/
def parseSign (cs : List Char) : Bool × List Char :=
  match cs with
  | c :: tl => if c = '-' then (true, tl) else if c = '+' then (false, tl) else (false, cs)
  | [] => (false, [])

/-- The pieces of a decimal numeral `[-] ip [. fp] [e [-] ev]`:
sign, integer-part value, fractional-part value and digit count, exponent
sign and value.  Kept in `Nat`/`Bool` so the kernel can evaluate parsing;
the numeric value is taken by `partsVal`. -/
structure NumParts where
  neg : Bool
  ip : Nat
  fp : Nat
  fpCnt : Nat
  eneg : Bool
  ev : Nat
deriving DecidableEq

/-- Exact rational value of a parsed numeral. -/
def partsVal (p : NumParts) : ℚ :=
  (if p.neg then (-1 : ℚ) else 1) * ((p.ip : ℚ) + (p.fp : ℚ) / 10 ^ p.fpCnt) *
    (10 : ℚ) ^ (if p.eneg then -(p.ev : ℤ) else (p.ev : ℤ))

/-- Exponent-and-end part of a float literal: either the end of input, or
`e`/`E`, an optional sign and a digit run that must exhaust the input. -/
def parseExpPart (allowUS : Bool) (neg : Bool) (ip fp : Nat) (fpCnt : Nat) :
    List Char → Option NumParts
  | [] => some ⟨neg, ip, fp, fpCnt, false, 0⟩
  | c :: cs =>
    if c = 'e' ∨ c = 'E' then
      let (eneg, cs2) := parseSign cs
      match digitsAux allowUS 0 0 cs2 with
      | (ev, ecnt, cs3) =>
        if ecnt = 0 ∨ cs3 ≠ [] then Option.none
        else some ⟨neg, ip, fp, fpCnt, eneg, ev⟩
    else Option.none

/-- Fractional part after a decimal point, then the exponent part. -/
def afterDot (allowUS : Bool) (neg : Bool) (ip ipCnt : Nat) (cs4 : List Char) :
    Option NumParts :=
  match digitsAux allowUS 0 0 cs4 with
  | (fp, fpCnt, cs5) =>
    if ipCnt + fpCnt = 0 then Option.none
    else parseExpPart allowUS neg ip fp fpCnt cs5

/-- After the integer digits: an optional `.` with fractional digits
(at least one digit somewhere in the mantissa), then the exponent part. -/
def afterMantissa (allowUS : Bool) (neg : Bool) (ip ipCnt : Nat) :
    List Char → Option NumParts
  | c :: cs4 =>
    if c = '.' then afterDot allowUS neg ip ipCnt cs4
    else if ipCnt = 0 then Option.none
    else parseExpPart allowUS neg ip 0 0 (c :: cs4)
  | [] => if ipCnt = 0 then Option.none else parseExpPart allowUS neg ip 0 0 []

/-- Decimal numeral parser over code points: CPython's `float(str)` grammar
(strip whitespace, sign, digits with optional single dot and exponent,
underscores between digits).  `inf`/`nan` literals are outside the rational
model and are rejected; they never arise from the monetary fields modelled
here.  With `allowUS := false` this is also the numeral grammar pandas
`to_numeric` accepts. -/
def floatCore (allowUS : Bool) (cs0 : List Char) : Option NumParts :=
  let cs1 := trimWs cs0
  match parseSign cs1 with
  | (neg, cs2) =>
    match digitsAux allowUS 0 0 cs2 with
    | (ip, ipCnt, cs3) => afterMantissa allowUS neg ip ipCnt cs3

/-- CPython `float(s)` on a string, as an exact rational. -/
def pyFloatParse (s : String) : Option ℚ := (floatCore true s.data).map partsVal

/-- CPython `int(s)` on a string: strip, sign, digit run (underscores allowed),
nothing else. -/
def pyIntParse (s : String) : Option Int :=
  let cs1 := trimWs s.data
  match parseSign cs1 with
  | (neg, cs2) =>
    match digitsAux true 0 0 cs2 with
    | (v, cnt, rest) =>
      if cnt = 0 ∨ rest ≠ [] then Option.none
      else some (if neg then -(v : Int) else (v : Int))

/-- The `to_float` (refresh_sheet.py lines 31–37):
```
try:
    if x is None or x == "":
        return 0.0
    return float(str(x).replace(",", "."))
except Exception:
    return 0.0
```
modelled per `PyVal` constructor: `str(x)` of an `int`/`float` re-parses to
the same value (CPython `repr` of a float round-trips), `str` of a bool /
list / dict never parses as a numeral, and every exception path yields 0. -/
def to_float (x : PyVal) : ℚ :=
  match x with
  | .pnone => 0
  | .pstr s => if s = "" then 0 else ((pyFloatParse (pyReplaceChar s ',' '.')).getD 0)
  | .pint n => (n : ℚ)
  | .pnum q => q
  | .pbool _ => 0
  | .plist _ => 0
  | .pdict _ => 0

/-! ### `str()` / `repr()` of values (needed by the broad `except` branches) -/

/-- Zero-pad a string on the left to width `k`. -/
def padZeros (k : Nat) (s : String) : String :=
  ⟨List.replicate (k - s.length) '0'⟩ ++ s

/-- CPython `repr` of a float, in the rational model: the shortest decimal
expansion (floats-as-rationals render exactly; a rational with no finite
decimal expansion is not a Python float and gets a placeholder). -/
def floatRepr (q : ℚ) : String :=
  let sign := if q < 0 then "-" else ""
  let aq : ℚ := |q|
  match (List.range 41).find? (fun k => (aq * 10 ^ k).den = 1) with
  | some 0 => sign ++ toString (aq.num.toNat) ++ ".0"
  | some k =>
    let n := (aq * 10 ^ k).num.toNat
    sign ++ toString (n / 10 ^ k) ++ "." ++ padZeros k (toString (n % 10 ^ k))
  | Option.none => sign ++ toString aq.num ++ "/" ++ toString aq.den

mutual

/-- CPython `repr` of a JSON-like value (string escaping inside nested
containers is not modelled; no claim depends on it). -/
def pyRepr : PyVal → String
  | .pnone => "None"
  | .pbool b => if b then "True" else "False"
  | .pint n => toString n
  | .pnum q => floatRepr q
  | .pstr s => "\x27" ++ s ++ "\x27"
  | .plist xs => "[" ++ String.intercalate ", " (pyReprList xs) ++ "]"
  | .pdict d => "\x7b" ++ String.intercalate ", " (pyReprDict d) ++ "\x7d"

def pyReprList : List PyVal → List String
  | [] => []
  | x :: xs => pyRepr x :: pyReprList xs

def pyReprDict : List (String × PyVal) → List String
  | [] => []
  | (k, v) :: rest => ("\x27" ++ k ++ "\x27: " ++ pyRepr v) :: pyReprDict rest

end

/-- CPython `str(x)`: identity on strings, `repr` otherwise. -/
def pyToStr : PyVal → String
  | .pstr s => s
  | v => pyRepr v

/-! ### Timestamps: `format_datetime` (lines 22–29) -/

/-- A wall-clock datetime as carried by `datetime.datetime` (the timezone
offset only has its syntax validated; `strftime` does not render it). -/
structure DT where
  year : Nat
  month : Nat
  day : Nat
  hour : Nat
  minute : Nat
  second : Nat
deriving DecidableEq

/-- Gregorian leap year, as `datetime` uses it. -/
def isLeap (y : Nat) : Bool := (y % 4 = 0 ∧ y % 100 ≠ 0) ∨ y % 400 = 0

/-- Days in a month, as validated by the `datetime` constructor. -/
def daysInMonth (y m : Nat) : Nat :=
  if m = 2 then (if isLeap y then 29 else 28)
  else if m = 4 ∨ m = 6 ∨ m = 9 ∨ m = 11 then 30
  else 31

/-- The range checks done by `datetime.datetime(y, m, d, h, mi, s)`. -/
def dtValid (y m d h mi s : Nat) : Bool :=
  1 ≤ y ∧ y ≤ 9999 ∧ 1 ≤ m ∧ m ≤ 12 ∧ 1 ≤ d ∧ d ≤ daysInMonth y m ∧
  h ≤ 23 ∧ mi ≤ 59 ∧ s ≤ 59

/-- Two-digit zero padding, as `strftime` `%d`/`%m`/`%H`/`%M`/`%S`. -/
def pad2 (n : Nat) : String := if n < 10 then "0" ++ toString n else toString n

/-- The `dt.strftime("%d/%m/%Y %H:%M:%S")` (glibc `%Y` prints the year without
padding; all years produced by the parsers here have four digits). -/
def renderDMY (dt : DT) : String :=
  pad2 dt.day ++ "/" ++ pad2 dt.month ++ "/" ++ toString dt.year ++ " " ++
    pad2 dt.hour ++ ":" ++ pad2 dt.minute ++ ":" ++ pad2 dt.second

/-- Exactly two decimal digits. -/
def parse2 (cs : List Char) : Option (Nat × List Char) :=
  match cs with
  | a :: b :: rest =>
    if a.isDigit ∧ b.isDigit then some (10 * digitVal a + digitVal b, rest)
    else Option.none
  | _ => Option.none

/-- Fractional part `[.,]digit+` after the seconds, consumed and discarded
(`strftime` does not render it). -/
def isoFrac (cs : List Char) : Option (List Char) :=
  match cs with
  | c :: rest =>
    if c = '.' ∨ c = ',' then
      match digitsAux false 0 0 rest with
      | (_, cnt, rest2) => if cnt = 0 then Option.none else some rest2
    else some cs
  | [] => some []

/-- Time-of-day part accepted by `datetime.fromisoformat` (CPython ≥ 3.11):
`HH`, `HH:MM`, `HH:MM:SS`, the basic forms `HHMM`, `HHMMSS`, and an optional
fractional part after the seconds. -/
def isoTime (cs : List Char) : Option (Nat × Nat × Nat × List Char) :=
  match parse2 cs with
  | Option.none => Option.none
  | some (h, rest) =>
    match rest with
    | ':' :: rest2 =>
      match parse2 rest2 with
      | Option.none => Option.none
      | some (mi, rest3) =>
        match rest3 with
        | ':' :: rest4 =>
          match parse2 rest4 with
          | Option.none => Option.none
          | some (s, rest5) =>
            match isoFrac rest5 with
            | Option.none => Option.none
            | some rest6 => some (h, mi, s, rest6)
        | _ => some (h, mi, 0, rest3)
    | _ =>
      match parse2 rest with
      | Option.none => some (h, 0, 0, rest)
      | some (mi, rest3) =>
        match parse2 rest3 with
        | Option.none => some (h, mi, 0, rest3)
        | some (s, rest5) =>
          match isoFrac rest5 with
          | Option.none => Option.none
          | some rest6 => some (h, mi, s, rest6)

/-- UTC-offset part accepted by `fromisoformat`: nothing, `Z`, or a sign
followed by a time-shaped offset; only its well-formedness matters, the
rendered wall-clock fields are unchanged. -/
def isoOffset (cs : List Char) : Bool :=
  match cs with
  | [] => true
  | [c] => c = 'Z'
  | c :: rest =>
    if c = '+' ∨ c = '-' then
      match isoTime rest with
      | some (h, mi, s, rest2) => rest2 = [] ∧ h ≤ 23 ∧ mi ≤ 59 ∧ s ≤ 59
      | Option.none => false
    else false

/-- The `datetime.fromisoformat` (CPython ≥ 3.11) on the extended calendar date:
`YYYY-MM-DD`, optionally a single separator character of any kind, a time of
day and a UTC offset; all fields are range-checked as the `datetime`
constructor does.  (Basic-format dates `YYYYMMDD` and ISO week dates are not
modelled; none occur in the data this script formats.) -/
def isoParse (cs : List Char) : Option DT :=
  match cs with
  | y1 :: y2 :: y3 :: y4 :: '-' :: m1 :: m2 :: '-' :: d1 :: d2 :: rest =>
    if y1.isDigit ∧ y2.isDigit ∧ y3.isDigit ∧ y4.isDigit ∧ m1.isDigit ∧
        m2.isDigit ∧ d1.isDigit ∧ d2.isDigit then
      let y := 1000 * digitVal y1 + 100 * digitVal y2 + 10 * digitVal y3 + digitVal y4
      let m := 10 * digitVal m1 + digitVal m2
      let d := 10 * digitVal d1 + digitVal d2
      match rest with
      | [] => if dtValid y m d 0 0 0 then some ⟨y, m, d, 0, 0, 0⟩ else Option.none
      | _ :: rest2 =>
        match isoTime rest2 with
        | Option.none => Option.none
        | some (h, mi, s, rest3) =>
          if isoOffset rest3 ∧ dtValid y m d h mi s then some ⟨y, m, d, h, mi, s⟩
          else Option.none
    else Option.none
  | _ => Option.none

/-- The `date_string.replace("Z", "+00:00")`: substring replacement with a
one-character pattern. -/
def replZ : List Char → List Char
  | [] => []
  | c :: tl => (if c = 'Z' then "+00:00".data else [c]) ++ replZ tl

/-- The `format_datetime` (refresh_sheet.py lines 22–29):
```
if not date_string:
    return ""
try:
    dt = datetime.fromisoformat(date_string.replace("Z", "+00:00"))
    return dt.strftime("%d/%m/%Y %H:%M:%S")
except Exception:
    return str(date_string)
```
The argument is annotated `Optional[str]` but `orders_to_rows` passes raw
JSON values through, so the model takes any `PyVal`; a truthy non-string
hits `AttributeError` inside the `try` and falls back to `str(x)`. -/
def format_datetime (v : PyVal) : String :=
  if ¬ truthy v then ""
  else
    match v with
    | .pstr s =>
      match isoParse (replZ s.data) with
      | some dt => renderDMY dt
      | Option.none => s
    | _ => pyToStr v

/-! ### Traceability timestamps: `parse_trace_dt` (lines 39–70)

The regex
`(\d{2})-(\d{2})-(\d{4}).*?(\d{1,2}):(\d{2}):(\d{2})(?:\s*([ap])\s*\.?\s*m\s*\.?)?`
is embedded with `re.search` semantics: leftmost starting position wins, the
lazy `.*?` takes the shortest gap (never crossing a newline, since `.` does
not match `\n`), `\d{1,2}` is greedy, and the trailing optional group is
taken whenever its body matches. -/

/-- The regex's seven capture groups, with `int()` already applied to the six
digit groups (they are pure digit strings, so parsing cannot fail). -/
structure LocGroups where
  dd : Nat
  mm : Nat
  yyyy : Nat
  hh : Nat
  mi : Nat
  ss : Nat
  ap : Option Char
deriving DecidableEq

/-- The `\s` of the pattern (the relevant whitespace after the script has already
replaced the non-breaking spaces by plain spaces). -/
def reWs (c : Char) : Bool := pyWs c

/-- The optional trailing group `(?:\s*([ap])\s*\.?\s*m\s*\.?)?`: whitespace,
`a`/`p`, whitespace, optional dot, whitespace, a mandatory `m` (the final
`\s*\.?` always matches and binds nothing).  The character classes of the
consecutive tokens are disjoint, so greedy maximal munch is exact. -/
def ampmScan (cs : List Char) : Option Char :=
  match cs.dropWhile reWs with
  | c :: cs2 =>
    if c = 'a' ∨ c = 'p' then
      let cs3 := (cs2.dropWhile reWs)
      let cs4 := match cs3 with
        | '.' :: t => t
        | t => t
      match cs4.dropWhile reWs with
      | 'm' :: _ => some c
      | _ => Option.none
    else Option.none
  | [] => Option.none

/-- The `:(\d{2}):(\d{2})` after the hour, then the optional am/pm group. -/
def afterHour (h : Nat) (cs : List Char) : Option (Nat × Nat × Nat × Option Char) :=
  match cs with
  | ':' :: m1 :: m2 :: ':' :: s1 :: s2 :: rest =>
    if m1.isDigit ∧ m2.isDigit ∧ s1.isDigit ∧ s2.isDigit then
      some (h, 10 * digitVal m1 + digitVal m2, 10 * digitVal s1 + digitVal s2,
        ampmScan rest)
    else Option.none
  | _ => Option.none

/-- The `(\d{1,2}):(\d{2}):(\d{2})(?:…)?` — the hour is greedy: two digits are
tried first and the engine backtracks to one digit only if the rest fails. -/
def matchTime (cs : List Char) : Option (Nat × Nat × Nat × Option Char) :=
  match cs with
  | a :: b :: rest =>
    if a.isDigit then
      if b.isDigit then
        match afterHour (10 * digitVal a + digitVal b) rest with
        | some r => some r
        | Option.none => afterHour (digitVal a) (b :: rest)
      else afterHour (digitVal a) (b :: rest)
    else Option.none
  | _ => Option.none

/-- The lazy gap `.*?` before the time: try the time at the current position
and, on failure, consume one non-newline character and retry. -/
def gapTime : List Char → Option (Nat × Nat × Nat × Option Char)
  | [] => Option.none
  | c :: tl =>
    match matchTime (c :: tl) with
    | some r => some r
    | Option.none => if c = '\n' then Option.none else gapTime tl

/-- The `(\d{2})-(\d{2})-(\d{4})` at the current position. -/
def matchDateAt (cs : List Char) : Option (Nat × Nat × Nat × List Char) :=
  match cs with
  | d1 :: d2 :: '-' :: m1 :: m2 :: '-' :: y1 :: y2 :: y3 :: y4 :: rest =>
    if d1.isDigit ∧ d2.isDigit ∧ m1.isDigit ∧ m2.isDigit ∧ y1.isDigit ∧
        y2.isDigit ∧ y3.isDigit ∧ y4.isDigit then
      some (10 * digitVal d1 + digitVal d2, 10 * digitVal m1 + digitVal m2,
        1000 * digitVal y1 + 100 * digitVal y2 + 10 * digitVal y3 + digitVal y4,
        rest)
    else Option.none
  | _ => Option.none

/-- Whole pattern anchored at the current position. -/
def tryAt (cs : List Char) : Option LocGroups :=
  match matchDateAt cs with
  | Option.none => Option.none
  | some (dd, mm, yyyy, rest) =>
    match gapTime rest with
    | Option.none => Option.none
    | some (hh, mi, ss, ap) => some ⟨dd, mm, yyyy, hh, mi, ss, ap⟩

/-- The `re.search`: the match at the leftmost feasible starting position. -/
def locSearch : List Char → Option LocGroups
  | [] => Option.none
  | c :: tl =>
    match tryAt (c :: tl) with
    | some g => some g
    | Option.none => locSearch tl

/-- The 12-hour → 24-hour conversion (lines 60–64):
```
if ap == "p" and hh_i != 12: hh_i += 12
if ap == "a" and hh_i == 12: hh_i = 0
```
(the two `if`s cannot both fire, so the chain below is equivalent). -/
def conv12 (ap : Option Char) (h : Nat) : Nat :=
  if ap = some 'p' ∧ h ≠ 12 then h + 12
  else if ap = some 'a' ∧ h = 12 then 0
  else h

/-- Line 49: `t.lower().replace(" ", " ").replace(" ", " ").strip()`. -/
def traceNorm (t : String) : List Char :=
  trimWs ((pyLower t).data.map fun c => if c = ' ' ∨ c = ' ' then ' ' else c)

/-- The `parse_trace_dt` (lines 39–70): empty/falsy input gives `""`; an
ISO-parseable input is formatted; otherwise the lowercased, space-normalized
input is searched with the locale pattern, the hour converted from 12-hour
clock, and the result formatted — any failure (no match, or an out-of-range
`datetime`) returns the stripped original unchanged. -/
def parse_trace_dt (value : String) : String :=
  if value = "" then ""
  else
    let t := pyStrip value
    match isoParse (replZ t.data) with
    | some dt => renderDMY dt
    | Option.none =>
      match locSearch (traceNorm t) with
      | Option.none => t
      | some g =>
        let hh24 := conv12 g.ap g.hh
        if dtValid g.yyyy g.mm g.dd hh24 g.mi g.ss then
          renderDMY ⟨g.yyyy, g.mm, g.dd, hh24, g.mi, g.ss⟩
        else t

/-! ### `extract_traceability` (lines 72–100) -/

/-- The five traceability fields, keyed as in the `trace` dict literal. -/
structure Trace where
  embalado : String
  transferido_a_tienda : String
  listo_para_retiro : String
  retirado : String
  entregado_a_transportista : String
deriving DecidableEq

/-- The all-empty initial `trace` dict. -/
def emptyTrace : Trace := ⟨"", "", "", "", ""⟩

/-- Does `pre` start `cs`? -/
def startsWith : List Char → List Char → Bool
  | [], _ => true
  | _ :: _, [] => false
  | p :: ps, c :: cs => p = c && startsWith ps cs

/-- Substring test (`"transportista" in name_norm`). -/
def containsSub (hay needle : List Char) : Bool :=
  match hay with
  | [] => needle.isEmpty
  | _ :: tl => startsWith needle hay || containsSub tl needle

/-- The `name.replace("-", "_").replace(" ", "_")` (line 96). -/
def sepNorm (s : String) : String :=
  ⟨s.data.map fun c => if c = '-' ∨ c = ' ' then '_' else c⟩

/-- The `elif` dispatch of the loop body (lines 87–98), applied to the
already lowercased, stripped name and the stripped value: exact match for
the four non-carrier events, substring fallback on the separator-normalized
name for the carrier event. -/
def traceDispatch (tr : Trace) (name value : String) : Trace :=
  if name = "embalado" then { tr with embalado := parse_trace_dt value }
  else if name = "transferido_a_tienda" then
    { tr with transferido_a_tienda := parse_trace_dt value }
  else if name = "listo_para_retiro" then
    { tr with listo_para_retiro := parse_trace_dt value }
  else if name = "retirado_por_cliente" then
    { tr with retirado := parse_trace_dt value }
  else
    let name_norm := sepNorm name
    if containsSub name_norm.data "transportista".data ∨
        containsSub name_norm.data "carrier".data ∨
        containsSub name_norm.data "entregado_a_transportista".data then
      { tr with entregado_a_transportista := parse_trace_dt value }
    else tr

/-- The body of the `for attr in note_attrs` loop (lines 83–98) on a dict
attribute: extract and normalize `name` and `value` (lines 84–85), then
dispatch. -/
def traceApply (tr : Trace) (ad : List (String × PyVal)) : Trace :=
  traceDispatch tr
    (pyLower (pyStrip (pyToStr ((dictGet ad "name").getD (.pstr "")))))
    (pyStrip (pyToStr ((dictGet ad "value").getD (.pstr ""))))

/-- One iteration of the loop: `.get` on a non-dict element raises. -/
def traceStep (tr : Trace) (attr : PyVal) : Except String Trace :=
  match attr with
  | .pdict ad => .ok (traceApply tr ad)
  | _ => .error "AttributeError: attr.get"

/-- Left fold of `traceStep` in the `Except` monad. -/
def traceFold (tr : Trace) : List PyVal → Except String Trace
  | [] => .ok tr
  | a :: rest =>
    match traceStep tr a with
    | .ok tr2 => traceFold tr2 rest
    | .error e => .error e

/-- Python `for x in v` — what `v` yields, or a `TypeError`.  Iterating a
string yields its characters as one-character strings, iterating a dict
yields its keys. -/
def pyIterE : PyVal → Except String (List PyVal)
  | .plist xs => .ok xs
  | .pstr s => .ok (s.data.map fun c => .pstr ⟨[c]⟩)
  | .pdict d => .ok (d.map fun kv => .pstr kv.1)
  | _ => .error "TypeError: not iterable"

/-- The `extract_traceability` (lines 72–100): falsy input returns the empty
trace; otherwise every attribute is scanned, the four non-carrier events by
exact match on the lowercased stripped name, the carrier event by substring
match on the separator-normalized name. -/
def extract_traceability (note_attrs : PyVal) : Except String Trace :=
  if ¬ truthy note_attrs then .ok emptyTrace
  else
    match pyIterE note_attrs with
    | .error e => .error e
    | .ok attrs => traceFold emptyTrace attrs

/-! ### Row mapping: `get_fulfilled_at` (102–107) and `orders_to_rows` (146–196)

Python operations that can raise inside `orders_to_rows` (attribute access on
non-dicts, iteration of non-iterables, `int()` of bad strings, unhashable set
elements, unorderable `sorted`/`max` arguments, `join` of non-strings,
subscripting) are modelled in `Except String`; everything else is pure. -/

/-- Exception-aware sequencing (`Except.bind`, spelled out so proofs can
rewrite with `ebind_ok`). -/
def ebind (x : Except String α) (f : α → Except String β) : Except String β :=
  match x with
  | .error e => .error e
  | .ok a => f a

@[simp] theorem ebind_ok (a : α) (f : α → Except String β) :
    ebind (.ok a) f = f a := rfl

@[simp] theorem ebind_err (e : String) (f : α → Except String β) :
    ebind (.error e) f = .error e := rfl

theorem ebind_eq_ok {x : Except String α} {f : α → Except String β}
    {b : β} : ebind x f = .ok b ↔ ∃ a, x = .ok a ∧ f a = .ok b := by
  cases x with
  | error e => simp [ebind]
  | ok a => simp [ebind]

/-- The `x.get(k, dflt)`: `AttributeError` unless `x` is a dict. -/
def pyGetE (v : PyVal) (k : String) (dflt : PyVal) : Except String PyVal :=
  match v with
  | .pdict d => .ok ((dictGet d k).getD dflt)
  | _ => .error "AttributeError: get"

/-- A list comprehension / generator run to completion. -/
def eMapM (f : α → Except String β) : List α → Except String (List β)
  | [] => .ok []
  | x :: xs =>
    match f x with
    | .error e => .error e
    | .ok y =>
      match eMapM f xs with
      | .error e => .error e
      | .ok ys => .ok (y :: ys)

/-- The `int(q)` truncates toward zero. -/
def ratTrunc (q : ℚ) : Int := q.num / (q.den : Int)

/-- The `int(x)` (line 155): ints and bools pass through, floats truncate,
strings must be integer numerals, everything else raises. -/
def pyIntE : PyVal → Except String Int
  | .pint n => .ok n
  | .pbool b => .ok (if b then 1 else 0)
  | .pnum q => .ok (ratTrunc q)
  | .pstr s =>
    match pyIntParse s with
    | some n => .ok n
    | Option.none => .error "ValueError: invalid literal for int()"
  | _ => .error "TypeError: int() argument"

/-- Hashable values (set elements): everything but lists and dicts. -/
def pyHashable : PyVal → Bool
  | .plist _ => false
  | .pdict _ => false
  | _ => true

/-- Numeric view of a scalar (`bool` is an `int` in Python). -/
def asNumQ : PyVal → Option ℚ
  | .pint n => some (n : ℚ)
  | .pnum q => some q
  | .pbool b => some (if b then 1 else 0)
  | _ => Option.none

/-- Python `==` on hashable scalars: numeric tower compares by value,
strings by content, `None` only to itself; cross-kind is unequal. -/
def pyScalarEq (a b : PyVal) : Bool :=
  match asNumQ a, asNumQ b with
  | some x, some y => x = y
  | _, _ =>
    match a, b with
    | .pnone, .pnone => true
    | .pstr s, .pstr t => s = t
    | _, _ => false

/-- Deduplication in first-encounter order (the set's iteration order is
irrelevant here: it is only counted, or sorted afterwards). -/
def dedupAux (seen : List PyVal) : List PyVal → List PyVal
  | [] => []
  | x :: rest =>
    if seen.any (fun y => pyScalarEq y x) then dedupAux seen rest
    else x :: dedupAux (x :: seen) rest

/-- The `set(xs)`: `TypeError` on unhashable elements, else the distinct values. -/
def pySetList (xs : List PyVal) : Except String (List PyVal) :=
  if xs.all pyHashable then .ok (dedupAux [] xs) else .error "TypeError: unhashable"

/-- Is the value a `str`, and its content. -/
def isStrV : PyVal → Bool
  | .pstr _ => true
  | _ => false

def strOf : PyVal → String
  | .pstr s => s
  | _ => ""

/-- Python `<` on strings: lexicographic by code point. -/
def lexLt : List Char → List Char → Bool
  | [], [] => false
  | [], _ :: _ => true
  | _ :: _, [] => false
  | a :: as, b :: bs =>
    if a.toNat < b.toNat then true
    else if b.toNat < a.toNat then false
    else lexLt as bs

def strLt (a b : String) : Bool := lexLt a.data b.data

def strLe (a b : String) : Bool := !strLt b a

/-- Insertion sort by a boolean `≤` (distinct elements, so any correct sort
agrees with `sorted`). -/
def insertOrd (le : α → α → Bool) (x : α) : List α → List α
  | [] => [x]
  | y :: ys => if le x y then x :: y :: ys else y :: insertOrd le x ys

def insSort (le : α → α → Bool) : List α → List α
  | [] => []
  | x :: xs => insertOrd le x (insSort le xs)

/-- The `sorted(xs)`: fine on ≤1 element, all-strings sort lexicographically by
code point, all-numerics by value; a mixed list of length ≥ 2 raises
`TypeError` (CPython compares some adjacent pair while building runs). -/
def pySortedE (xs : List PyVal) : Except String (List PyVal) :=
  match xs with
  | [] => .ok []
  | [x] => .ok [x]
  | _ =>
    if xs.all isStrV then
      .ok ((insSort strLe (xs.map strOf)).map .pstr)
    else if xs.all (fun v => (asNumQ v).isSome) then
      .ok (insSort (fun a b => (asNumQ a).getD 0 ≤ (asNumQ b).getD 0) xs)
    else .error "TypeError: unorderable types in sorted()"

/-- The `sep.join(xs)`: every element must be a `str`. -/
def pyJoinE (sep : String) (xs : List PyVal) : Except String String :=
  if xs.all isStrV then .ok (String.intercalate sep (xs.map strOf))
  else .error "TypeError: join expects str"

/-- Lexicographically larger of two strings, `max` keeping the earlier
argument on ties. -/
def maxStr (a b : String) : String := if strLt a b then b else a

/-- The `max(xs)` on a non-empty list: all-strings by code point, all-numerics by
value (first maximal element wins), mixed raises. -/
def pyMaxE : List PyVal → Except String PyVal
  | [] => .error "ValueError: max() arg is an empty sequence"
  | x :: rest =>
    if (x :: rest).all isStrV then
      .ok (.pstr (rest.foldl (fun a b => maxStr a (strOf b)) (strOf x)))
    else if (x :: rest).all (fun v => (asNumQ v).isSome) then
      .ok (rest.foldl
        (fun a b => if (asNumQ a).getD 0 < (asNumQ b).getD 0 then b else a) x)
    else .error "TypeError: unorderable types in max()"

/-- The `v[0]` (line 163): lists and strings index, dicts raise `KeyError`,
the rest `TypeError`. -/
def pyIndex0 : PyVal → Except String PyVal
  | .plist (x :: _) => .ok x
  | .plist [] => .error "IndexError"
  | .pstr s =>
    match s.data with
    | c :: _ => .ok (.pstr ⟨[c]⟩)
    | [] => .error "IndexError"
  | .pdict _ => .error "KeyError: 0"
  | _ => .error "TypeError: not subscriptable"

/-- The `get_fulfilled_at` (lines 102–107):
```
fulf = order.get("fulfillments") or []
if not fulf: return None
dates = [f.get("created_at") for f in fulf if f.get("created_at")]
return max(dates) if dates else None
```
-/
def get_fulfilled_at (o : PyVal) : Except String PyVal :=
  ebind (pyGetE o "fulfillments" .pnone) fun fulfR =>
  let fulf := pyOr fulfR (.plist [])
  if ¬ truthy fulf then .ok .pnone
  else
    ebind (pyIterE fulf) fun fs =>
    ebind (eMapM (fun f => pyGetE f "created_at" .pnone) fs) fun dVals =>
    let dates := dVals.filter truthy
    if dates.isEmpty then .ok .pnone else pyMaxE dates

/-- The row dict literal (lines 167–195), with the computed values plugged
in; the column names and their order are fixed by the literal itself. -/
def mkRow (idV nameV : PyVal) (created updated : String) (finV : PyVal)
    (paid : String) (fulfStV : PyVal) (fulfilled : String)
    (subtotal shippingA totalP discountA : ℚ) (metodo : PyVal)
    (skus : Nat) (prods : Int) (bCity bProv sCity : PyVal)
    (reqShip : Bool) (liFulf : String) (tr : Trace) (cancelled : String)
    (tagsV : PyVal) : List (String × PyVal) :=
  [("Order_ID", idV),
   ("KC", nameV),
   ("Created_at", .pstr created),
   ("Updated_at", .pstr updated),
   ("Financial_Status", finV),
   ("Paid at", .pstr paid),
   ("Fulfillment Status", fulfStV),
   ("Fulfilled at", .pstr fulfilled),
   ("Subtotal", .pnum subtotal),
   ("Shipping", .pnum shippingA),
   ("Total", .pnum totalP),
   ("Discount_Amount", .pnum discountA),
   ("Metodo_envio", metodo),
   ("SKUs", .pint skus),
   ("Total_Productos", .pint prods),
   ("Billing City", bCity),
   ("Billing Province", bProv),
   ("Shipping City", sCity),
   ("Lineitem requires shipping", .pbool reqShip),
   ("Lineitem fulfillment status", .pstr liFulf),
   ("Embalado", .pstr tr.embalado),
   ("Transferido_a_tienda", .pstr tr.transferido_a_tienda),
   ("Listo_para_retiro", .pstr tr.listo_para_retiro),
   ("Retirado", .pstr tr.retirado),
   ("Entregado_a_transportista", .pstr tr.entregado_a_transportista),
   ("Cancelled at", .pstr cancelled),
   ("Tags", tagsV)]

/-- The fixed column set, in literal order. -/
def fixedCols : List String :=
  ["Order_ID", "KC", "Created_at", "Updated_at", "Financial_Status", "Paid at",
   "Fulfillment Status", "Fulfilled at", "Subtotal", "Shipping", "Total",
   "Discount_Amount", "Metodo_envio", "SKUs", "Total_Productos", "Billing City",
   "Billing Province", "Shipping City", "Lineitem requires shipping",
   "Lineitem fulfillment status", "Embalado", "Transferido_a_tienda",
   "Listo_para_retiro", "Retirado", "Entregado_a_transportista", "Cancelled at",
   "Tags"]

/-- One iteration of the `for o in orders` loop of `orders_to_rows`
(lines 148–195), with every sub-computation in source evaluation order. -/
def rowOfOrder (o : PyVal) : Except String (List (String × PyVal)) :=
  ebind (pyGetE o "billing_address" .pnone) fun billingR =>
  let billing := pyOr billingR (.pdict [])
  ebind (pyGetE o "shipping_address" .pnone) fun shippingR =>
  let shipping := pyOr shippingR (.pdict [])
  ebind (pyGetE o "line_items" (.plist [])) fun liR =>
  ebind (pyIterE (pyOr liR (.plist []))) fun line_items =>
  ebind (eMapM (fun li => pyGetE li "sku" .pnone) line_items) fun skuVals =>
  let skus := skuVals.filter truthy
  ebind (pySetList skus) fun skuSet =>
  let total_skus_unicos := skuSet.length
  ebind (eMapM (fun li =>
      ebind (pyGetE li "quantity" (.pint 0)) fun q =>
      pyIntE (pyOr q (.pint 0))) line_items) fun qs =>
  let total_productos := qs.foldl (· + ·) 0
  ebind (eMapM (fun li => pyGetE li "fulfillment_status" .pnone) line_items)
    fun stVals =>
  let lineitem_statuses := stVals.filter truthy
  ebind (if lineitem_statuses.isEmpty then .ok "" else
      ebind (pySetList lineitem_statuses) fun st1 =>
      ebind (pySortedE st1) fun st2 =>
      pyJoinE ", " st2) fun lineitem_fulfillment =>
  ebind (eMapM (fun li => pyGetE li "requires_shipping" .pnone) line_items)
    fun reqVals =>
  let requires_shipping := reqVals.any truthy
  ebind (pyGetE o "shipping_lines" (.plist [])) fun slR =>
  let shipping_lines := pyOr slR (.plist [])
  ebind (if truthy shipping_lines then
      ebind (pyIndex0 shipping_lines) fun first =>
      pyGetE first "title" .pnone
    else .ok (.pstr "")) fun shipping_method =>
  ebind (pyGetE o "note_attributes" .pnone) fun naR =>
  ebind (extract_traceability (pyOr naR (.plist []))) fun trace =>
  ebind (pyGetE o "id" .pnone) fun idV =>
  ebind (pyGetE o "name" .pnone) fun nameV =>
  ebind (pyGetE o "created_at" .pnone) fun createdV =>
  ebind (pyGetE o "updated_at" .pnone) fun updatedV =>
  ebind (pyGetE o "financial_status" .pnone) fun finV =>
  ebind (pyGetE o "processed_at" .pnone) fun procV =>
  ebind (pyGetE o "fulfillment_status" .pnone) fun fulfStV =>
  ebind (get_fulfilled_at o) fun fulfilledV =>
  ebind (pyGetE o "subtotal_price" .pnone) fun subV =>
  ebind (pyGetE o "total_shipping_price_set" .pnone) fun shipSetR =>
  ebind (pyGetE (pyOr shipSetR (.pdict [])) "shop_money" (.pdict []))
    fun shopMoney =>
  ebind (pyGetE shopMoney "amount" .pnone) fun amountV =>
  ebind (pyGetE o "total_price" .pnone) fun totV =>
  ebind (pyGetE o "total_discounts" .pnone) fun discV =>
  ebind (pyGetE billing "city" .pnone) fun bCity =>
  ebind (pyGetE billing "province" .pnone) fun bProv =>
  ebind (pyGetE shipping "city" .pnone) fun sCity =>
  ebind (pyGetE o "cancelled_at" .pnone) fun cancV =>
  ebind (pyGetE o "tags" .pnone) fun tagsV =>
  .ok (mkRow idV nameV (format_datetime createdV) (format_datetime updatedV)
    finV (format_datetime procV) fulfStV (format_datetime fulfilledV)
    (to_float subV) (to_float amountV) (to_float totV) (to_float discV)
    shipping_method total_skus_unicos total_productos bCity bProv sCity
    requires_shipping lineitem_fulfillment trace (format_datetime cancV) tagsV)

/-- The `orders_to_rows` (lines 146–196): one row per order, an uncaught
exception in any iteration aborts the whole mapping. -/
def orders_to_rows (orders : List PyVal) : Except String (List (List (String × PyVal))) :=
  eMapM rowOfOrder orders

/-! ### Fetcher: `_get_next_page_url` (110–119) and `fetch_all_orders` (122–143)

The HTTP layer is the external collaborator: a run is determined by the
sequence of responses the API would hand back, a response carrying its status
code, body text, parsed `orders` payload and `Link` header. -/

structure HttpResponse where
  status : Nat
  text : String
  ordersJ : List PyVal
  link : Option String

/-- The `s.find(c)`: index of the first occurrence, `-1` if absent. -/
def pyFindIdx (c : Char) (cs : List Char) : Int :=
  match cs with
  | [] => -1
  | x :: tl => if x = c then 0 else
      match pyFindIdx c tl with
      | -1 => -1
      | i => i + 1

/-- Python slice `s[a:b]` with negative-index wrapping and clamping. -/
def pySlice (cs : List Char) (a b : Int) : List Char :=
  let n : Int := cs.length
  let norm : Int → Nat := fun i => (if i < 0 then n + i else i).toNat
  (cs.take (norm b)).drop (norm a)

/-- The `s.split(",")`: like Python, empty pieces are kept and splitting the
empty string gives one empty piece. -/
def splitOnComma : List Char → List (List Char)
  | [] => [[]]
  | x :: tl =>
    let r := splitOnComma tl
    if x = ',' then [] :: r
    else
      match r with
      | h :: t => (x :: h) :: t
      | [] => [[x]]

/-- The `_get_next_page_url` (lines 110–119): split the `Link` header on commas,
strip each part, and from the first part containing `rel="next"` return the
characters strictly between the first `<` and the first `>` (Python slicing
semantics when either is absent). -/
def findNext : List (List Char) → Option String
  | [] => Option.none
  | p :: ps =>
    if containsSub p "rel=\"next\"".data then
      some ⟨pySlice p (pyFindIdx '<' p + 1) (pyFindIdx '>' p)⟩
    else findNext ps

def get_next_page_url (link : Option String) : Option String :=
  match link with
  | Option.none => Option.none
  | some h =>
    if h = "" then Option.none
    else findNext ((splitOnComma h.data).map trimWs)

/-- The `r.text[:900]`. -/
def pyTake (n : Nat) (s : String) : String := ⟨s.data.take n⟩

/-- The `while True` fetch loop (lines 129–142), consuming the upstream's
responses in order: a non-200 status raises
`RuntimeError(f"Shopify {r.status_code}: {r.text[:900]}")` immediately
(no retry); otherwise the page's orders are appended and the loop follows
the `rel="next"` link, stopping when none is present.  (The upstream always
answers each request, so the model never runs out of responses on the paths
the theorems speak about.) -/
def fetchGo : List HttpResponse → List PyVal → Except String (List PyVal)
  | [], _ => .error "model: upstream sent no response"
  | r :: rest, acc =>
    if r.status ≠ 200 then
      .error ("Shopify " ++ toString r.status ++ ": " ++ pyTake 900 r.text)
    else
      let acc2 := acc ++ r.ordersJ
      match get_next_page_url r.link with
      | Option.none => .ok acc2
      | some _ => fetchGo rest acc2

def fetch_all_orders (responses : List HttpResponse) : Except String (List PyVal) :=
  fetchGo responses []

/-! ### Numeric normalizer (`main`, lines 225–227) and sheet writer (205–216) -/

/-- Banker's rounding to an integer (`numpy.round` on the exact value). -/
def roundHalfEven (q : ℚ) : ℤ :=
  let f : ℤ := ⌊q⌋
  let r : ℚ := q - f
  if r < 1 / 2 then f
  else if 1 / 2 < r then f + 1
  else if f % 2 = 0 then f else f + 1

/-- The `.round(2)`. -/
def round2 (q : ℚ) : ℚ := (roundHalfEven (q * 100) : ℚ) / 100

/-- The `pd.to_numeric(·, errors="coerce")` per cell: numbers and bools pass
through, strings go through the (underscore-free, comma-free) numeral
grammar, `None` and parse failures become NaN (`Option.none`).  Nested
containers would raise in pandas even under `coerce`; they cannot occur in
the monetary columns, which `orders_to_rows` always fills with floats. -/
def to_numeric_coerce : PyVal → Option ℚ
  | .pint n => some (n : ℚ)
  | .pnum q => some q
  | .pbool b => some (if b then 1 else 0)
  | .pstr s => (floatCore false s.data).map partsVal
  | .pnone => Option.none
  | .plist _ => Option.none
  | .pdict _ => Option.none

/-- One cell of the normalizer pass: coerce, `fillna(0)`, round to 2 dp. -/
def normCell (v : PyVal) : ℚ := round2 ((to_numeric_coerce v).getD 0)

/-- The fixed monetary column list of `main` (line 225). -/
def monetaryCols : List String := ["Subtotal", "Shipping", "Total", "Discount_Amount"]

/-- The normalizer applied to one row: only the monetary columns change. -/
def normalizeRow (r : List (String × PyVal)) : List (String × PyVal) :=
  r.map fun kv =>
    if monetaryCols.contains kv.1 then (kv.1, .pnum (normCell kv.2)) else kv

/-- The `df.fillna("")` then `astype(str)` for one cell. -/
def cellStr : PyVal → String
  | .pnone => ""
  | v => pyToStr v

/-- The `[df.columns.tolist()] + df.astype(str).values.tolist()` — the header row
(empty when no orders produced no columns) followed by the stringified data
rows. -/
def sheetValues (rows : List (List (String × PyVal))) : List (List String) :=
  (match rows with
   | [] => ([] : List String)
   | _ => fixedCols) :: rows.map (fun r => r.map fun kv => cellStr kv.2)

/-- The one observable side effect of a successful run. -/
inductive SheetEffect where
  | write : List (List String) → SheetEffect
deriving DecidableEq

/-- The `main` (lines 219–232) as a function of the upstream's responses: fetch,
map to rows, normalize the monetary columns, and only then write the tab.
The result pairs the spreadsheet writes performed with the propagated fatal
error, if any — a `RuntimeError` raised by the fetch (or an exception in the
row mapper) reaches the process boundary before `write_df_to_sheet` runs,
so no write happens. -/
def mainRun (responses : List HttpResponse) : List SheetEffect × Option String :=
  match fetch_all_orders responses with
  | .error e => ([], some e)
  | .ok orders =>
    match orders_to_rows orders with
    | .error e => ([], some e)
    | .ok rows => ([.write (sheetValues (rows.map normalizeRow))], Option.none)

/-! ## Lemmas about the numeral parser -/

/-- Decimal value of a digit string, most significant digit first. -/
def natOfDigits (ds : List Char) : Nat :=
  ds.foldl (fun a c => 10 * a + digitVal c) 0

theorem pyWs_cases {c : Char} (h : pyWs c = true) :
    c = ' ' ∨ c = '\t' ∨ c = '\n' ∨ c = '\r' ∨ c = '\x0b' ∨ c = '\x0c' ∨
    c = ' ' ∨ c = ' ' := by
  simpa [pyWs, decide_eq_true_eq] using h

theorem ws_ne_dot {c : Char} (h : pyWs c = true) : c ≠ '.' := by
  rcases pyWs_cases h with rfl | rfl | rfl | rfl | rfl | rfl | rfl | rfl <;> decide

theorem digit_not_special {c : Char} (h : c.isDigit = true) :
    c ≠ '-' ∧ c ≠ '+' ∧ c ≠ '.' ∧ c ≠ ',' ∧ c ≠ '_' ∧ pyWs c = false := by
  refine ⟨?_, ?_, ?_, ?_, ?_, ?_⟩
  · rintro rfl; exact absurd h (by decide)
  · rintro rfl; exact absurd h (by decide)
  · rintro rfl; exact absurd h (by decide)
  · rintro rfl; exact absurd h (by decide)
  · rintro rfl; exact absurd h (by decide)
  · by_contra hw
    rw [Bool.not_eq_false] at hw
    rcases pyWs_cases hw with rfl | rfl | rfl | rfl | rfl | rfl | rfl | rfl <;>
      exact absurd h (by decide)

theorem count_dot_dropWhile (cs : List Char) :
    (cs.dropWhile pyWs).count '.' = cs.count '.' := by
  induction cs with
  | nil => rfl
  | cons c tl ih =>
    by_cases h : pyWs c = true
    · rw [List.dropWhile_cons, if_pos h, ih, List.count_cons]
      simp [(ws_ne_dot h)]
    · rw [List.dropWhile_cons, if_neg (by simp [h])]

theorem count_dot_trimWs (cs : List Char) :
    (trimWs cs).count '.' = cs.count '.' := by
  unfold trimWs
  rw [List.count_reverse, count_dot_dropWhile, List.count_reverse,
    count_dot_dropWhile]

theorem count_dot_parseSign (cs : List Char) :
    ((parseSign cs).2).count '.' = cs.count '.' := by
  unfold parseSign
  cases cs with
  | nil => rfl
  | cons c tl =>
    by_cases h1 : c = '-'
    · subst h1; simp [List.count_cons]
    · by_cases h2 : c = '+'
      · subst h2; simp [List.count_cons]
      · simp [h1, h2]

theorem count_dot_digitsAux (u : Bool) :
    ∀ (cs : List Char) (acc cnt : Nat),
      ((digitsAux u acc cnt cs).2.2).count '.' = cs.count '.'
  | [], _, _ => rfl
  | c :: cs, acc, cnt => by
    rw [digitsAux.eq_def]
    by_cases hd : c.isDigit = true
    · simp only [hd, if_true]
      rw [count_dot_digitsAux u cs _ _, List.count_cons]
      simp [(digit_not_special hd).2.2.1]
    · simp only [hd, Bool.false_eq_true, if_false]
      by_cases hu : c = '_' ∧ 0 < cnt ∧ u = true ∧ headDigit cs = true
      · rw [if_pos hu, count_dot_digitsAux u cs _ _, List.count_cons]
        obtain ⟨rfl, -⟩ := hu
        simp
      · rw [if_neg hu]

theorem parseExpPart_none (u n : Bool) (ip fp k : Nat) (cs : List Char)
    (h : 1 ≤ cs.count '.') : parseExpPart u n ip fp k cs = Option.none := by
  cases cs with
  | nil => simp at h
  | cons c tl =>
    by_cases hc : c = 'e' ∨ c = 'E'
    · have hcd : c ≠ '.' := by rcases hc with rfl | rfl <;> decide
      have htl : 1 ≤ tl.count '.' := by
        rw [List.count_cons] at h; simpa [hcd] using h
      rw [parseExpPart, if_pos hc]
      rcases hps : parseSign tl with ⟨eneg, cs2⟩
      rcases hda : digitsAux u 0 0 cs2 with ⟨ev, ecnt, cs3⟩
      have hcs3 : 1 ≤ cs3.count '.' := by
        have h2 : cs2.count '.' = tl.count '.' := by
          have h := count_dot_parseSign tl; rw [hps] at h; exact h
        have h3 : cs3.count '.' = cs2.count '.' := by
          have h := count_dot_digitsAux u cs2 0 0; rw [hda] at h; exact h
        omega
      have hne : cs3 ≠ [] := by
        intro hnil; rw [hnil] at hcs3; simp at hcs3
      simp only [hda]
      rw [if_pos (Or.inr hne)]
    · rw [parseExpPart, if_neg hc]

theorem afterDot_none (u n : Bool) (ip ipCnt : Nat) (cs4 : List Char)
    (h : 1 ≤ cs4.count '.') : afterDot u n ip ipCnt cs4 = Option.none := by
  rw [afterDot]
  rcases hda : digitsAux u 0 0 cs4 with ⟨fp, fpCnt, cs5⟩
  have hcs5 : 1 ≤ cs5.count '.' := by
    have h3 : cs5.count '.' = cs4.count '.' := by
      have h := count_dot_digitsAux u cs4 0 0; rw [hda] at h; exact h
    omega
  show (if ipCnt + fpCnt = 0 then Option.none
    else parseExpPart u n ip fp fpCnt cs5) = Option.none
  by_cases h0 : ipCnt + fpCnt = 0
  · rw [if_pos h0]
  · rw [if_neg h0]
    exact parseExpPart_none u n ip fp fpCnt cs5 hcs5

theorem afterMantissa_none (u n : Bool) (ip ipCnt : Nat) (cs3 : List Char)
    (h : 2 ≤ cs3.count '.') : afterMantissa u n ip ipCnt cs3 = Option.none := by
  cases cs3 with
  | nil => simp at h
  | cons c tl =>
    by_cases hc : c = '.'
    · subst hc
      rw [afterMantissa, if_pos rfl]
      apply afterDot_none
      have h' : tl.count '.' + 1 = (('.' : Char) :: tl).count '.' := by
        rw [List.count_cons]; simp
      omega
    · rw [afterMantissa, if_neg hc]
      by_cases h0 : ipCnt = 0
      · rw [if_pos h0]
      · rw [if_neg h0]
        exact parseExpPart_none u n ip 0 0 (c :: tl) (by omega)

theorem floatCore_none (u : Bool) (cs0 : List Char)
    (h : 2 ≤ cs0.count '.') : floatCore u cs0 = Option.none := by
  rw [floatCore]
  rcases hps : parseSign (trimWs cs0) with ⟨neg, cs2⟩
  rcases hda : digitsAux u 0 0 cs2 with ⟨ip, ipCnt, cs3⟩
  have h1 := count_dot_trimWs cs0
  have h2 : cs2.count '.' = (trimWs cs0).count '.' := by
    have h := count_dot_parseSign (trimWs cs0); rw [hps] at h; exact h
  have h3 : cs3.count '.' = cs2.count '.' := by
    have h := count_dot_digitsAux u cs2 0 0; rw [hda] at h; exact h
  simp only [hda]
  exact afterMantissa_none u neg ip ipCnt cs3 (by omega)

theorem count_dot_map_commaFix (cs : List Char) :
    (cs.map fun c => if c = ',' then '.' else c).count '.' =
      cs.count ',' + cs.count '.' := by
  induction cs with
  | nil => rfl
  | cons c tl ih =>
    rw [List.map_cons, List.count_cons, ih, List.count_cons, List.count_cons]
    by_cases hc : c = ','
    · subst hc; simp; omega
    · by_cases hd : c = '.'
      · subst hd; simp; omega
      · simp [hc, hd]

theorem dropWhile_eq_self_of_none (p : Char → Bool) (cs : List Char)
    (h : ∀ c ∈ cs, p c = false) : cs.dropWhile p = cs := by
  cases cs with
  | nil => rfl
  | cons c tl =>
    rw [List.dropWhile_cons, if_neg (by simp [h c (List.mem_cons_self c tl)])]

theorem trimWs_eq_self (cs : List Char) (h : ∀ c ∈ cs, pyWs c = false) :
    trimWs cs = cs := by
  unfold trimWs
  rw [dropWhile_eq_self_of_none _ _ h,
    dropWhile_eq_self_of_none _ _ (by simpa using h), List.reverse_reverse]

theorem digitsAux_append (u : Bool) (ds : List Char) :
    ∀ (rest : List Char) (acc cnt : Nat),
      (∀ c ∈ ds, c.isDigit = true) →
      (rest = [] ∨ ∃ c tl, rest = c :: tl ∧ c.isDigit = false ∧ c ≠ '_') →
      digitsAux u acc cnt (ds ++ rest) =
        (ds.foldl (fun a c => 10 * a + digitVal c) acc, cnt + ds.length, rest) := by
  induction ds with
  | nil =>
    intro rest acc cnt _ hrest
    simp only [List.nil_append, List.foldl_nil, List.length_nil, Nat.add_zero]
    rcases hrest with rfl | ⟨c, tl, rfl, h1, h2⟩
    · rfl
    · rw [digitsAux.eq_def]
      simp [h1, h2]
  | cons d ds' ih =>
    intro rest acc cnt hds hrest
    have hd := hds d (List.mem_cons_self ..)
    rw [List.cons_append, digitsAux.eq_def]
    simp only [hd, if_true]
    rw [ih rest _ _ (fun c hc => hds c (List.mem_cons_of_mem _ hc)) hrest]
    simp only [List.foldl_cons, List.length_cons, Prod.mk.injEq]
    refine ⟨by trivial, by omega, by trivial⟩

/-! ## C7 / C10: monetary coercion -/

theorem floatCore_digits_comma (ds1 ds2 : List Char) (h1 : ds1 ≠ [])
    (_h2 : ds2 ≠ []) (hd1 : ∀ c ∈ ds1, c.isDigit = true)
    (hd2 : ∀ c ∈ ds2, c.isDigit = true) :
    floatCore true (ds1 ++ '.' :: ds2) =
      some ⟨false, natOfDigits ds1, natOfDigits ds2, ds2.length, false, 0⟩ := by
  have htrim : trimWs (ds1 ++ '.' :: ds2) = ds1 ++ '.' :: ds2 := by
    apply trimWs_eq_self
    intro c hc
    rcases List.mem_append.mp hc with h | h
    · exact (digit_not_special (hd1 c h)).2.2.2.2.2
    · rcases List.mem_cons.mp h with rfl | h
      · decide
      · exact (digit_not_special (hd2 c h)).2.2.2.2.2
  obtain ⟨d, tl, rfl⟩ : ∃ d tl, ds1 = d :: tl := by
    cases ds1 with
    | nil => exact absurd rfl h1
    | cons d tl => exact ⟨d, tl, rfl⟩
  have hdd := hd1 d (List.mem_cons_self ..)
  have hsign : parseSign ((d :: tl) ++ '.' :: ds2) =
      (false, (d :: tl) ++ '.' :: ds2) := by
    rw [List.cons_append, parseSign]
    simp [(digit_not_special hdd).1, (digit_not_special hdd).2.1]
  have hda := digitsAux_append true (d :: tl) ('.' :: ds2) 0 0 hd1
    (Or.inr ⟨'.', ds2, rfl, by decide, by decide⟩)
  have hda2 := digitsAux_append true ds2 [] 0 0 hd2 (Or.inl rfl)
  rw [List.append_nil] at hda2
  rw [floatCore]
  simp only [htrim, hsign, hda]
  rw [afterMantissa, if_pos rfl, afterDot]
  simp only [hda2]
  rw [if_neg (by simp)]
  rw [parseExpPart]
  simp [natOfDigits]

/-- C7: the monetary coercion `to_float` yields exactly `0.0` on `None`, on
the empty string and on any string that fails the `float()` numeral grammar
after the comma fix; and a numeral written with a comma as decimal separator
(digits, one comma, digits) is parsed to its exact decimal value. -/
theorem claim_C7 :
    to_float .pnone = 0 ∧ to_float (.pstr "") = 0 ∧
    (∀ s : String, floatCore true (pyReplaceChar s ',' '.').data = Option.none →
      to_float (.pstr s) = 0) ∧
    (∀ ds1 ds2 : List Char, ds1 ≠ [] → ds2 ≠ [] →
      (∀ c ∈ ds1, c.isDigit = true) → (∀ c ∈ ds2, c.isDigit = true) →
      to_float (.pstr ⟨ds1 ++ ',' :: ds2⟩) =
        (natOfDigits ds1 : ℚ) + (natOfDigits ds2 : ℚ) / 10 ^ ds2.length) := by
  refine ⟨rfl, rfl, ?_, ?_⟩
  · intro s hs
    by_cases h0 : s = ""
    · subst h0; rfl
    · show (if s = "" then (0 : ℚ)
        else ((floatCore true (pyReplaceChar s ',' '.').data).map partsVal).getD 0) = 0
      rw [if_neg h0, hs]
      rfl
  · intro ds1 ds2 h1 h2 hd1 hd2
    have hne : (⟨ds1 ++ ',' :: ds2⟩ : String) ≠ "" := by
      intro hcon
      have hdata : ds1 ++ ',' :: ds2 = [] := congrArg String.data hcon
      simp at hdata
    have hid : ∀ ds : List Char, (∀ c ∈ ds, c.isDigit = true) →
        ds.map (fun c => if c = ',' then '.' else c) = ds := by
      intro ds
      induction ds with
      | nil => intro _; rfl
      | cons c tl ih =>
        intro hds
        rw [List.map_cons,
          if_neg (digit_not_special (hds c (List.mem_cons_self ..))).2.2.2.1,
          ih (fun x hx => hds x (List.mem_cons_of_mem _ hx))]
    have hrep : (pyReplaceChar ⟨ds1 ++ ',' :: ds2⟩ ',' '.').data =
        ds1 ++ '.' :: ds2 := by
      show (ds1 ++ ',' :: ds2).map (fun c => if c = ',' then '.' else c) = _
      rw [List.map_append, List.map_cons, if_pos rfl, hid ds1 hd1, hid ds2 hd2]
    show (if (⟨ds1 ++ ',' :: ds2⟩ : String) = "" then (0 : ℚ)
      else ((floatCore true
        (pyReplaceChar ⟨ds1 ++ ',' :: ds2⟩ ',' '.').data).map partsVal).getD 0) = _
    rw [if_neg hne, hrep, floatCore_digits_comma ds1 ds2 h1 h2 hd1 hd2]
    show partsVal ⟨false, natOfDigits ds1, natOfDigits ds2, ds2.length, false, 0⟩ = _
    simp [partsVal]

/-- Witness for C7: `None`-free concrete inputs — garbage zeroes out, and
`"19,99"` parses to `19.99`. -/
theorem claim_C7_witness :
    to_float (.pstr "abc") = 0 ∧ to_float (.pstr "19,99") = 1999 / 100 := by
  constructor
  · exact claim_C7.2.2.1 "abc" (by decide)
  · have h := claim_C7.2.2.2 ['1', '9'] ['9', '9'] (by decide) (by decide)
      (by decide) (by decide)
    have e1 : natOfDigits ['1', '9'] = 19 := by decide
    have e2 : natOfDigits ['9', '9'] = 99 := by decide
    rw [e1, e2] at h
    have : to_float (.pstr "19,99") = (19 : ℚ) + (99 : ℚ) / 10 ^ (['9', '9'].length) := h
    rw [this]
    norm_num

/-- C10: a string containing both a comma and a period is zeroed by
`to_float` — after the comma→period replacement it has two periods and the
numeral grammar rejects it. -/
theorem claim_C10 :
    ∀ s : String, ',' ∈ s.data → '.' ∈ s.data → to_float (.pstr s) = 0 := by
  intro s hc hd
  have hne : s ≠ "" := by
    intro h
    subst h
    have : ("" : String).data = [] := rfl
    rw [this] at hc
    exact absurd hc (List.not_mem_nil _)
  have hcnt : 2 ≤ ((s.data.map fun c => if c = ',' then '.' else c).count '.') := by
    rw [count_dot_map_commaFix]
    have c1 : 0 < s.data.count ',' := List.count_pos_iff.mpr hc
    have c2 : 0 < s.data.count '.' := List.count_pos_iff.mpr hd
    omega
  have hcore : floatCore true (pyReplaceChar s ',' '.').data = Option.none :=
    floatCore_none true _ hcnt
  show (if s = "" then (0 : ℚ)
    else ((floatCore true (pyReplaceChar s ',' '.').data).map partsVal).getD 0) = 0
  rw [if_neg hne, hcore]
  rfl

/-- Witness for C10: `"1,234.56"` (thousands separator) is silently zeroed. -/
theorem claim_C10_witness : to_float (.pstr "1,234.56") = 0 :=
  claim_C10 "1,234.56" (by decide) (by decide)

/-! ## C9: the numeric-normalizer pass is idempotent -/

theorem roundHalfEven_intCast (n : ℤ) : roundHalfEven (n : ℚ) = n := by
  unfold roundHalfEven
  rw [Int.floor_intCast]
  norm_num

theorem round2_idem (q : ℚ) : round2 (round2 q) = round2 q := by
  unfold round2
  rw [div_mul_cancel₀ _ (by norm_num : (100 : ℚ) ≠ 0), roundHalfEven_intCast]

theorem normCell_pnum (x : ℚ) : normCell (.pnum x) = round2 x := rfl

/-- C9: the numeric-normalizer pass (coerce with parse-failure-as-0, then
round to 2 decimals) is idempotent, per cell and on a whole row. -/
theorem claim_C9 :
    (∀ v : PyVal, normCell (.pnum (normCell v)) = normCell v) ∧
    (∀ r : List (String × PyVal), normalizeRow (normalizeRow r) = normalizeRow r) := by
  have hcell : ∀ v : PyVal, normCell (.pnum (normCell v)) = normCell v := by
    intro v
    rw [normCell_pnum]
    unfold normCell
    exact round2_idem _
  refine ⟨hcell, ?_⟩
  intro r
  unfold normalizeRow
  rw [List.map_map]
  apply List.map_congr_left
  intro kv _
  by_cases h : monetaryCols.contains kv.1
  · simp only [Function.comp_apply, h, if_true, hcell]
  · simp only [Function.comp_apply]
    rw [if_neg h, if_neg h]

/-! ## C3: `format_datetime` behaviour -/

theorem format_datetime_pstr (s : String) (hs : s ≠ "") :
    format_datetime (.pstr s) =
      (match isoParse (replZ s.data) with
       | some dt => renderDMY dt
       | Option.none => s) := by
  rw [format_datetime, if_neg (by simp [truthy, hs])]

/-- C3 (amended): `format_datetime` maps absent input (`None` or `""`) to
`""` and a parseable ISO-8601 string (trailing `Z` accepted) to
`DD/MM/YYYY HH:MM:SS`; but an unparseable non-empty string is echoed back
unchanged — not turned into the empty string as the original claim stated. -/
theorem claim_C3 :
    format_datetime .pnone = "" ∧ format_datetime (.pstr "") = "" ∧
    (∀ (s : String) (dt : DT), isoParse (replZ s.data) = some dt →
      format_datetime (.pstr s) = renderDMY dt) ∧
    (∀ s : String, s ≠ "" → isoParse (replZ s.data) = Option.none →
      format_datetime (.pstr s) = s) := by
  refine ⟨rfl, rfl, ?_, ?_⟩
  · intro s dt h
    by_cases hs : s = ""
    · subst hs
      rw [show isoParse (replZ ("" : String).data) = Option.none from by decide] at h
      exact Option.noConfusion h
    · rw [format_datetime_pstr s hs, h]
  · intro s hs h
    rw [format_datetime_pstr s hs, h]

/-- Counterexample to C3 as stated: an unparseable non-empty timestamp is
echoed raw by `format_datetime`, not replaced by the empty string. -/
theorem claim_C3_cex :
    format_datetime (.pstr "not-a-date") = "not-a-date" ∧
    ("not-a-date" : String) ≠ "" := ⟨by decide, by decide⟩

/-- Witness for C3: a parseable `Z`-suffixed timestamp formats, an
unparseable one echoes. -/
theorem claim_C3_witness :
    format_datetime (.pstr "2024-01-05T10:00:00Z") = "05/01/2024 10:00:00" ∧
    format_datetime (.pstr "nope") = "nope" := by
  constructor
  · have h := claim_C3.2.2.1 "2024-01-05T10:00:00Z" ⟨2024, 1, 5, 10, 0, 0⟩ (by decide)
    rw [h]
    rfl
  · exact claim_C3.2.2.2 "nope" (by decide) (by decide)

/-! ## C4: the locale timestamp parser -/

/-- C4: the worked example `"05-01-2024 a las 3:45:10 p.m."` parses to
`"05/01/2024 15:45:10"`; the 12-hour conversion rule is exactly
`a`@12 ↦ 0, `p`@12 ↦ 12, `p`@h≠12 ↦ h+12; and every matched locale
timestamp whose converted fields form a valid `datetime` is rendered with
that converted hour. -/
theorem claim_C4 :
    parse_trace_dt "05-01-2024 a las 3:45:10 p.m." = "05/01/2024 15:45:10" ∧
    (conv12 (some 'a') 12 = 0 ∧ conv12 (some 'p') 12 = 12 ∧
      ∀ h : Nat, h ≠ 12 → conv12 (some 'p') h = h + 12) ∧
    (∀ (v : String) (g : LocGroups), v ≠ "" →
      isoParse (replZ (pyStrip v).data) = Option.none →
      locSearch (traceNorm (pyStrip v)) = some g →
      dtValid g.yyyy g.mm g.dd (conv12 g.ap g.hh) g.mi g.ss = true →
      parse_trace_dt v =
        renderDMY ⟨g.yyyy, g.mm, g.dd, conv12 g.ap g.hh, g.mi, g.ss⟩) := by
  refine ⟨by decide, ⟨by decide, by decide, ?_⟩, ?_⟩
  · intro h hne
    rw [conv12, if_pos ⟨rfl, hne⟩]
  · intro v g hv hiso hloc hvalid
    rw [parse_trace_dt, if_neg hv]
    simp only [hiso, hloc]
    rw [if_pos hvalid]

/-- Witness for C4: the general matched-timestamp clause instantiated at the
worked example. -/
theorem claim_C4_witness :
    parse_trace_dt "05-01-2024 a las 3:45:10 p.m." =
      renderDMY ⟨2024, 1, 5, conv12 (some 'p') 3, 45, 10⟩ :=
  claim_C4.2.2 "05-01-2024 a las 3:45:10 p.m." ⟨5, 1, 2024, 3, 45, 10, some 'p'⟩
    (by decide) (by decide) (by decide) (by decide)

/-! ## C2: note-attribute name matching -/

theorem extract_single (ad : List (String × PyVal)) :
    extract_traceability (.plist [.pdict ad]) = .ok (traceApply emptyTrace ad) := rfl

theorem traceApply_nv (tr : Trace) (n v : String) :
    traceApply tr [("name", .pstr n), ("value", .pstr v)] =
      traceDispatch tr (pyLower (pyStrip n)) (pyStrip v) := rfl

/-- C2 (amended): name matching in `extract_traceability` is case-insensitive
for all five events — the outcome depends only on the lowercased stripped
name — but tolerance of `-`/space vs `_` separators holds only through the
carrier fallback (substring match on the separator-normalized name); the
four other events require their exact underscore-separated names. -/
theorem claim_C2 :
    (∀ n1 n2 v : String, pyLower (pyStrip n1) = pyLower (pyStrip n2) →
      extract_traceability
          (.plist [.pdict [("name", .pstr n1), ("value", .pstr v)]]) =
        extract_traceability
          (.plist [.pdict [("name", .pstr n2), ("value", .pstr v)]])) ∧
    (∀ n v : String,
      pyLower (pyStrip n) ≠ "embalado" →
      pyLower (pyStrip n) ≠ "transferido_a_tienda" →
      pyLower (pyStrip n) ≠ "listo_para_retiro" →
      pyLower (pyStrip n) ≠ "retirado_por_cliente" →
      (containsSub (sepNorm (pyLower (pyStrip n))).data "transportista".data = true ∨
       containsSub (sepNorm (pyLower (pyStrip n))).data "carrier".data = true ∨
       containsSub (sepNorm (pyLower (pyStrip n))).data
         "entregado_a_transportista".data = true) →
      extract_traceability (.plist [.pdict [("name", .pstr n), ("value", .pstr v)]]) =
        .ok { emptyTrace with
          entregado_a_transportista := parse_trace_dt (pyStrip v) }) := by
  constructor
  · intro n1 n2 v h
    rw [extract_single, extract_single, traceApply_nv, traceApply_nv, h]
  · intro n v h1 h2 h3 h4 hcar
    rw [extract_single, traceApply_nv, traceDispatch,
      if_neg h1, if_neg h2, if_neg h3, if_neg h4, if_pos hcar]

/-- Counterexample to C2 as stated: the hyphenated variant
`"Transferido-a-tienda"` is not recognized — the whole trace stays empty
although the attribute's value parses to a non-empty timestamp. -/
theorem claim_C2_cex :
    extract_traceability (.plist [.pdict [("name", .pstr "Transferido-a-tienda"),
        ("value", .pstr "2024-01-05T10:00:00Z")]]) = .ok emptyTrace ∧
    parse_trace_dt "2024-01-05T10:00:00Z" = "05/01/2024 10:00:00" :=
  ⟨rfl, by decide⟩

/-- Witness for C2: case-insensitivity on `"EMBALADO"` vs `"embalado"`, and
the space-separated carrier name reaching the carrier field. -/
theorem claim_C2_witness :
    extract_traceability (.plist [.pdict [("name", .pstr "EMBALADO"),
        ("value", .pstr "x")]]) =
      extract_traceability (.plist [.pdict [("name", .pstr "embalado"),
        ("value", .pstr "x")]]) ∧
    extract_traceability (.plist [.pdict [("name", .pstr "Entregado a transportista"),
        ("value", .pstr "x")]]) =
      .ok { emptyTrace with entregado_a_transportista := parse_trace_dt (pyStrip "x") } := by
  constructor
  · exact claim_C2.1 "EMBALADO" "embalado" "x" (by decide)
  · exact claim_C2.2 "Entregado a transportista" "x" (by decide) (by decide)
      (by decide) (by decide) (Or.inl (by decide))

/-! ## C6: fatal fetch errors and the absence of writes -/

theorem fetchGo_error (pre : List HttpResponse) (r : HttpResponse)
    (rest : List HttpResponse) :
    ∀ acc : List PyVal,
      (∀ p ∈ pre, p.status = 200 ∧ (get_next_page_url p.link).isSome = true) →
      r.status ≠ 200 →
      fetchGo (pre ++ r :: rest) acc =
        .error ("Shopify " ++ toString r.status ++ ": " ++ pyTake 900 r.text) := by
  induction pre with
  | nil =>
    intro acc _ hr
    rw [List.nil_append, fetchGo, if_pos hr]
  | cons p pre' ih =>
    intro acc hpre hr
    have hp := hpre p (List.mem_cons_self ..)
    obtain ⟨u, hu⟩ := Option.isSome_iff_exists.mp hp.2
    rw [List.cons_append, fetchGo, if_neg (by simp [hp.1])]
    simp only [hu]
    exact ih _ (fun q hq => hpre q (List.mem_cons_of_mem _ hq)) hr

/-- C6: if the upstream answers every followed page with status 200 and a
next link until some page comes back with a non-200 (in particular any
non-success) status, the fetcher raises
`RuntimeError(f"Shopify {status}: {text[:900]}")` — status code plus a
body excerpt of at most 900 characters — and the pipeline performs no
spreadsheet write at all. -/
theorem claim_C6 (pre : List HttpResponse) (r : HttpResponse)
    (rest : List HttpResponse)
    (hpre : ∀ p ∈ pre, p.status = 200 ∧ (get_next_page_url p.link).isSome = true)
    (hr : r.status ≠ 200) :
    fetch_all_orders (pre ++ r :: rest) =
      .error ("Shopify " ++ toString r.status ++ ": " ++ pyTake 900 r.text) ∧
    mainRun (pre ++ r :: rest) =
      ([], some ("Shopify " ++ toString r.status ++ ": " ++ pyTake 900 r.text)) ∧
    (pyTake 900 r.text).length ≤ 900 := by
  have hfetch := fetchGo_error pre r rest [] hpre hr
  refine ⟨hfetch, ?_, ?_⟩
  · rw [mainRun]
    simp only [fetch_all_orders] at hfetch ⊢
    rw [hfetch]
  · show (r.text.data.take 900).length ≤ 900
    rw [List.length_take]
    omega

/-- Witness for C6: a single 404 page aborts the run with the diagnostic
message and zero writes. -/
theorem claim_C6_witness :
    fetch_all_orders [⟨404, "Not Found", [], Option.none⟩] =
      .error ("Shopify " ++ toString 404 ++ ": " ++ pyTake 900 "Not Found") ∧
    mainRun [⟨404, "Not Found", [], Option.none⟩] =
      ([], some ("Shopify " ++ toString 404 ++ ": " ++ pyTake 900 "Not Found")) ∧
    (pyTake 900 ("Not Found" : String)).length ≤ 900 :=
  claim_C6 [] ⟨404, "Not Found", [], Option.none⟩ []
    (by intro p hp; exact absurd hp (List.not_mem_nil p)) (by decide)

/-! ## Row-mapper infrastructure: inversion of a successful `rowOfOrder` -/

theorem pyGetE_ok_dict {v : PyVal} {k : String} {d x : PyVal}
    (h : pyGetE v k d = .ok x) : ∃ dd, v = .pdict dd := by
  cases v <;> first
    | exact ⟨_, rfl⟩
    | exact absurd h (by simp [pyGetE])

theorem eMapM_cons_ok {f : α → Except String β} {x : α} {xs : List α}
    {rows : List β} (h : eMapM f (x :: xs) = .ok rows) :
    ∃ y ys, f x = .ok y ∧ eMapM f xs = .ok ys ∧ rows = y :: ys := by
  rw [eMapM] at h
  rcases hfx : f x with e | y <;> rw [hfx] at h
  · exact absurd h (by simp)
  · rcases hfs : eMapM f xs with e2 | ys <;> rw [hfs] at h
    · exact absurd h (by simp)
    · simp only [Except.ok.injEq] at h
      exact ⟨y, ys, rfl, rfl, h.symm⟩

/-- A successful row always carries the fixed column list, in order, and its
`"Fulfilled at"` cell is the formatted result of `get_fulfilled_at`;
moreover the order had to be a dict. -/
theorem rowOfOrder_ok_inv {o : PyVal} {r : List (String × PyVal)}
    (h : rowOfOrder o = .ok r) :
    (∃ od, o = .pdict od) ∧
    (∃ fv, get_fulfilled_at o = .ok fv ∧
      dictGet r "Fulfilled at" = some (.pstr (format_datetime fv))) ∧
    r.map Prod.fst = fixedCols := by
  rw [rowOfOrder] at h
  simp only [ebind_eq_ok, Except.ok.injEq] at h
  obtain ⟨billingR, h1, shippingR, h2, liR, h3, items, h4, skuVals, h5, skuSet,
    h6, qs, h7, stVals, h8, liFulf, h9, reqVals, h10, slR, h11, method, h12,
    naR, h13, trace, h14, idV, h15, nameV, h16, createdV, h17, updatedV, h18,
    finV, h19, procV, h20, fulfStV, h21, fulfilledV, h22, subV, h23, shipSetR,
    h24, shopMoney, h25, amountV, h26, totV, h27, discV, h28, bCity, h29,
    bProv, h30, sCity, h31, cancV, h32, tagsV, h33, hrow⟩ := h
  subst hrow
  exact ⟨pyGetE_ok_dict h1, ⟨fulfilledV, h22, rfl⟩, rfl⟩

/-! ## C8: the fixed column set -/

/-- C8 (amended): every row a successful `orders_to_rows` run produces has
exactly the fixed 27 column names, in order, independent of which source
fields were present — an absent field never drops a column (though raw
passthrough fields hold `None`, not `""`/0; see the counterexample). -/
theorem claim_C8 :
    ∀ (orders : List PyVal) (rows : List (List (String × PyVal))),
      orders_to_rows orders = .ok rows →
      ∀ r ∈ rows, r.map Prod.fst = fixedCols := by
  intro orders
  induction orders with
  | nil =>
    intro rows h r hr
    simp only [orders_to_rows, eMapM, Except.ok.injEq] at h
    subst h
    exact absurd hr (List.not_mem_nil r)
  | cons o os ih =>
    intro rows h r hr
    rw [orders_to_rows] at h
    obtain ⟨y, ys, hy, hys, rfl⟩ := eMapM_cons_ok h
    rcases List.mem_cons.mp hr with rfl | hr'
    · exact (rowOfOrder_ok_inv hy).2.2
    · exact ih ys hys r hr'

/-- Counterexample to C8 as stated: for the empty order the `Order_ID`
column exists but holds `None` — neither an empty string nor zero. -/
theorem claim_C8_cex :
    orders_to_rows [.pdict []] =
      .ok [mkRow .pnone .pnone "" "" .pnone "" .pnone "" 0 0 0 0 (.pstr "") 0 0
        .pnone .pnone .pnone false "" emptyTrace "" .pnone] ∧
    dictGet (mkRow .pnone .pnone "" "" .pnone "" .pnone "" 0 0 0 0 (.pstr "") 0 0
        .pnone .pnone .pnone false "" emptyTrace "" .pnone) "Order_ID" =
      some .pnone ∧
    PyVal.pnone ≠ .pstr "" ∧ PyVal.pnone ≠ .pint 0 ∧ PyVal.pnone ≠ .pnum 0 :=
  ⟨rfl, rfl, fun hc => PyVal.noConfusion hc, fun hc => PyVal.noConfusion hc,
    fun hc => PyVal.noConfusion hc⟩

/-- Witness for C8: the empty order's row carries the fixed column list. -/
theorem claim_C8_witness :
    (mkRow .pnone .pnone "" "" .pnone "" .pnone "" 0 0 0 0 (.pstr "") 0 0
      .pnone .pnone .pnone false "" emptyTrace "" .pnone).map Prod.fst = fixedCols :=
  claim_C8 [.pdict []]
    [mkRow .pnone .pnone "" "" .pnone "" .pnone "" 0 0 0 0 (.pstr "") 0 0
      .pnone .pnone .pnone false "" emptyTrace "" .pnone] rfl
    (mkRow .pnone .pnone "" "" .pnone "" .pnone "" 0 0 0 0 (.pstr "") 0 0
      .pnone .pnone .pnone false "" emptyTrace "" .pnone)
    (List.mem_cons_self ..)

/-! ## C5: the "Fulfilled at" field -/

/-- The `created_at` string of one fulfillment record. -/
def cFld (fd : List (String × PyVal)) : String :=
  strOf ((dictGet fd "created_at").getD .pnone)

/-- The `max` of a list of strings (first maximal element wins, as Python). -/
def lexMaxList : List String → String
  | [] => ""
  | x :: rest => rest.foldl maxStr x

theorem eMapM_pyGetE_dicts (k : String) (d : PyVal)
    (fs : List (List (String × PyVal))) :
    eMapM (fun f => pyGetE f k d) (fs.map PyVal.pdict) =
      .ok (fs.map fun fd => (dictGet fd k).getD d) := by
  induction fs with
  | nil => rfl
  | cons fd fs' ih =>
    have hstep : pyGetE (PyVal.pdict fd) k d = .ok ((dictGet fd k).getD d) := rfl
    rw [List.map_cons, eMapM]
    simp only [hstep, ih, List.map_cons]

theorem pyMaxE_cons (x : PyVal) (rest : List PyVal) :
    pyMaxE (x :: rest) =
      if (x :: rest).all isStrV = true then
        .ok (.pstr (rest.foldl (fun a b => maxStr a (strOf b)) (strOf x)))
      else if (x :: rest).all (fun v => (asNumQ v).isSome) = true then
        .ok (rest.foldl
          (fun a b => if (asNumQ a).getD 0 < (asNumQ b).getD 0 then b else a) x)
      else .error "TypeError: unorderable types in max()" := rfl

theorem foldl_maxStr_map (rest : List String) :
    ∀ a : String,
      (rest.map PyVal.pstr).foldl (fun x b => maxStr x (strOf b)) a =
        rest.foldl maxStr a := by
  induction rest with
  | nil => intro a; rfl
  | cons s rest' ih =>
    intro a
    rw [List.map_cons, List.foldl_cons, List.foldl_cons, ih]
    rfl

theorem gf_falsy (od : List (String × PyVal))
    (hf : truthy ((dictGet od "fulfillments").getD .pnone) = false) :
    get_fulfilled_at (.pdict od) = .ok .pnone := by
  simp [get_fulfilled_at, pyGetE, ebind_ok, pyOr, hf,
    show truthy (PyVal.plist []) = false from rfl]

theorem gf_fulfillments (od : List (String × PyVal))
    (fs : List (List (String × PyVal)))
    (hv : (dictGet od "fulfillments").getD .pnone = .plist (fs.map .pdict))
    (hne : fs ≠ [])
    (hc : ∀ fd ∈ fs, ∃ c : String,
      dictGet fd "created_at" = some (.pstr c) ∧ c ≠ "") :
    get_fulfilled_at (.pdict od) = .ok (.pstr (lexMaxList (fs.map cFld))) := by
  obtain ⟨f0, fs', rfl⟩ : ∃ f0 fs', fs = f0 :: fs' := by
    cases fs with
    | nil => exact absurd rfl hne
    | cons f0 fs' => exact ⟨f0, fs', rfl⟩
  have htr : truthy (.plist ((f0 :: fs').map PyVal.pdict)) = true := rfl
  have hvals : (f0 :: fs').map (fun fd => (dictGet fd "created_at").getD .pnone) =
      (f0 :: fs').map (fun fd => PyVal.pstr (cFld fd)) := by
    apply List.map_congr_left
    intro fd hfd
    obtain ⟨c, hc1, _⟩ := hc fd hfd
    rw [cFld, hc1]
    rfl
  have hfilter : ((f0 :: fs').map fun fd => PyVal.pstr (cFld fd)).filter truthy =
      (f0 :: fs').map fun fd => PyVal.pstr (cFld fd) := by
    rw [List.filter_eq_self]
    intro a ha
    obtain ⟨fd, hfd, rfl⟩ := List.mem_map.mp ha
    obtain ⟨c, hc1, hc2⟩ := hc fd hfd
    have : cFld fd = c := by rw [cFld, hc1]; rfl
    simp [truthy, this, hc2]
  have hgete : pyGetE (PyVal.pdict od) "fulfillments" PyVal.pnone =
      .ok ((dictGet od "fulfillments").getD .pnone) := rfl
  have hor : pyOr ((dictGet od "fulfillments").getD .pnone) (.plist []) =
      .plist ((f0 :: fs').map PyVal.pdict) := by
    rw [pyOr, hv, if_pos htr]
  have hiter : pyIterE (PyVal.plist ((f0 :: fs').map PyVal.pdict)) =
      .ok ((f0 :: fs').map PyVal.pdict) := rfl
  simp only [get_fulfilled_at, hgete, ebind_ok, hor,
    show truthy (PyVal.plist ((f0 :: fs').map PyVal.pdict)) = true from htr,
    Bool.not_true, Bool.false_eq_true, if_false, hiter,
    eMapM_pyGetE_dicts "created_at" PyVal.pnone (f0 :: fs'), hvals, hfilter]
  rw [List.map_cons]
  have hempty : ¬ ((PyVal.pstr (cFld f0) ::
      List.map (fun fd => PyVal.pstr (cFld fd)) fs').isEmpty = true) := by simp
  rw [if_neg hempty, pyMaxE_cons]
  have hall : ((PyVal.pstr (cFld f0) ::
      List.map (fun fd => PyVal.pstr (cFld fd)) fs').all isStrV) = true := by
    rw [List.all_eq_true]
    intro a ha
    rcases List.mem_cons.mp ha with rfl | h
    · rfl
    · obtain ⟨y, _, rfl⟩ := List.mem_map.mp h
      rfl
  rw [if_pos hall]
  have hmm2 : List.map (fun fd => PyVal.pstr (cFld fd)) fs' =
      (fs'.map cFld).map PyVal.pstr := by
    rw [List.map_map]
    rfl
  rw [hmm2, foldl_maxStr_map]
  rfl

/-- C5: for a successfully mapped order, "Fulfilled at" is empty when the
order has no (truthy) fulfillments, and otherwise equals the formatted
lexicographic maximum of the fulfillments' `created_at` strings. -/
theorem claim_C5 :
    ∀ (od : List (String × PyVal)) (r : List (String × PyVal)),
      rowOfOrder (.pdict od) = .ok r →
      (truthy ((dictGet od "fulfillments").getD .pnone) = false →
        dictGet r "Fulfilled at" = some (.pstr "")) ∧
      (∀ fs : List (List (String × PyVal)),
        (dictGet od "fulfillments").getD .pnone = .plist (fs.map .pdict) →
        fs ≠ [] →
        (∀ fd ∈ fs, ∃ c : String,
          dictGet fd "created_at" = some (.pstr c) ∧ c ≠ "") →
        dictGet r "Fulfilled at" =
          some (.pstr (format_datetime (.pstr (lexMaxList (fs.map cFld)))))) := by
  intro od r h
  obtain ⟨-, ⟨fv, hfv, hcell⟩, -⟩ := rowOfOrder_ok_inv h
  constructor
  · intro hf
    rw [gf_falsy od hf] at hfv
    have : fv = .pnone := by injection hfv.symm
    subst this
    exact hcell
  · intro fs hv hne hc
    rw [gf_fulfillments od fs hv hne hc] at hfv
    have : fv = .pstr (lexMaxList (fs.map cFld)) := by injection hfv.symm
    subst this
    exact hcell

/-- Witness for C5: two fulfillments, the later timestamp wins and is
formatted. -/
theorem claim_C5_witness :
    dictGet (mkRow .pnone .pnone "" "" .pnone "" .pnone
        (format_datetime (.pstr "2024-01-07T09:00:00Z")) 0 0 0 0 (.pstr "") 0 0
        .pnone .pnone .pnone false "" emptyTrace "" .pnone) "Fulfilled at" =
      some (.pstr (format_datetime (.pstr (lexMaxList
        ([[("created_at", PyVal.pstr "2024-01-05T10:00:00Z")],
          [("created_at", PyVal.pstr "2024-01-07T09:00:00Z")]].map cFld))))) := by
  have h := (claim_C5
    [("fulfillments", PyVal.plist
      [.pdict [("created_at", PyVal.pstr "2024-01-05T10:00:00Z")],
       .pdict [("created_at", PyVal.pstr "2024-01-07T09:00:00Z")]])]
    (mkRow .pnone .pnone "" "" .pnone "" .pnone
      (format_datetime (.pstr "2024-01-07T09:00:00Z")) 0 0 0 0 (.pstr "") 0 0
      .pnone .pnone .pnone false "" emptyTrace "" .pnone)
    (by rfl)).2
    [[("created_at", PyVal.pstr "2024-01-05T10:00:00Z")],
     [("created_at", PyVal.pstr "2024-01-07T09:00:00Z")]]
    rfl (by simp)
    (by
      intro fd hfd
      rcases List.mem_cons.mp hfd with rfl | hfd2
      · exact ⟨"2024-01-05T10:00:00Z", rfl, by decide⟩
      · rcases List.mem_cons.mp hfd2 with rfl | hfd3
        · exact ⟨"2024-01-07T09:00:00Z", rfl, by decide⟩
        · exact absurd hfd3 (List.not_mem_nil fd))
  exact h

/-! ## C1: which orders the row mapper survives

`orders_to_rows` is *not* total (see the counterexample); `wellShaped`
captures the JSON shapes under which every partial operation it performs
succeeds, and the amended claim is proved against it. -/

/-- The `except`-success as a boolean. -/
def eOk : Except String α → Bool
  | .ok _ => true
  | .error _ => false

theorem eOk_ebind {x : Except String α} {f : α → Except String β} :
    eOk (ebind x f) = true ↔ ∃ a, x = .ok a ∧ eOk (f a) = true := by
  cases x <;> simp [ebind, eOk]

theorem exists_ok_of_eOk {x : Except String α} (h : eOk x = true) :
    ∃ a, x = .ok a := by
  cases x with
  | ok a => exact ⟨a, rfl⟩
  | error e => simp [eOk] at h

def isDictB : PyVal → Bool
  | .pdict _ => true
  | _ => false

/-- The `x.get(k, d)` as the total function it is on dicts. -/
def dFld (v : PyVal) (k : String) (d : PyVal) : PyVal :=
  match v with
  | .pdict dd => (dictGet dd k).getD d
  | _ => d

theorem pyGetE_dictB {v : PyVal} (k : String) (d : PyVal)
    (h : isDictB v = true) : pyGetE v k d = .ok (dFld v k d) := by
  cases v <;> first
    | rfl
    | simp [isDictB] at h

/-- The value is a dict, or falsy (so the `or`-default kicks in). -/
def dictOrFalsy : PyVal → Bool
  | .pdict _ => true
  | v => !truthy v

/-- A (possibly empty) array of objects, or falsy. -/
def listOfDictsOrFalsy : PyVal → Bool
  | .plist xs => xs.all isDictB
  | v => !truthy v

/-- Per-line-item conditions: a hashable `sku`, an `int()`-convertible
(or falsy/absent) `quantity`, and a string `fulfillment_status` whenever it
is truthy. -/
def liOk (li : PyVal) : Bool :=
  pyHashable (dFld li "sku" .pnone) &&
  (eOk (pyIntE (pyOr (dFld li "quantity" (.pint 0)) (.pint 0))) &&
  (!truthy (dFld li "fulfillment_status" .pnone) ||
    isStrV (dFld li "fulfillment_status" .pnone)))

def liItemsOk : PyVal → Bool
  | .plist xs => xs.all liOk
  | _ => true

/-- The `shipping_lines`: falsy, or an array whose first element is an object. -/
def shipLinesOk : PyVal → Bool
  | .plist [] => true
  | .plist (x :: _) => isDictB x
  | v => !truthy v

/-- The `total_shipping_price_set`: falsy, or an object whose `shop_money`
(when present) is an object. -/
def shipSetOk : PyVal → Bool
  | .pdict sd => isDictB ((dictGet sd "shop_money").getD (.pdict []))
  | v => !truthy v

/-- One fulfillment record: an object whose `created_at` is a string when
truthy. -/
def fulfRecOk : PyVal → Bool
  | .pdict fd =>
    !truthy ((dictGet fd "created_at").getD .pnone) ||
      isStrV ((dictGet fd "created_at").getD .pnone)
  | _ => false

def fulfsOk : PyVal → Bool
  | .plist fs => fs.all fulfRecOk
  | v => !truthy v

/-- The expected JSON shapes of one order (C1, amended): addresses are
objects or falsy, `line_items`/`note_attributes` are arrays of objects or
falsy, line items satisfy `liOk`, `shipping_lines` and
`total_shipping_price_set` have the shapes above and fulfillments carry
string timestamps.  Monetary amounts and date strings are *not*
constrained: their coercions degrade. -/
def wellShaped : PyVal → Bool
  | .pdict od =>
    dictOrFalsy ((dictGet od "billing_address").getD .pnone) &&
    (dictOrFalsy ((dictGet od "shipping_address").getD .pnone) &&
    (listOfDictsOrFalsy ((dictGet od "line_items").getD (.plist [])) &&
    (liItemsOk ((dictGet od "line_items").getD (.plist [])) &&
    (shipLinesOk ((dictGet od "shipping_lines").getD (.plist [])) &&
    (shipSetOk ((dictGet od "total_shipping_price_set").getD .pnone) &&
    (listOfDictsOrFalsy ((dictGet od "note_attributes").getD .pnone) &&
    fulfsOk ((dictGet od "fulfillments").getD .pnone)))))))
  | _ => false

theorem orDict {v : PyVal} (h : dictOrFalsy v = true) :
    ∃ bd, pyOr v (.pdict []) = .pdict bd := by
  by_cases ht : truthy v = true
  · cases v <;> first
      | exact ⟨_, by rw [pyOr, if_pos ht]⟩
      | (exact absurd h (by simp [dictOrFalsy, ht]))
  · exact ⟨[], by rw [pyOr, if_neg ht]⟩

theorem listOrFalsy_elim {v : PyVal} (h1 : listOfDictsOrFalsy v = true)
    (h2 : liItemsOk v = true) :
    ∃ xs, pyOr v (.plist []) = .plist xs ∧ (∀ x ∈ xs, isDictB x = true) ∧
      ∀ x ∈ xs, liOk x = true := by
  by_cases ht : truthy v = true
  · cases v with
    | plist xs =>
      exact ⟨xs, by rw [pyOr, if_pos ht], List.all_eq_true.mp h1,
        List.all_eq_true.mp h2⟩
    | pnone => exact absurd h1 (by simp [listOfDictsOrFalsy, ht])
    | pbool b => exact absurd h1 (by simp [listOfDictsOrFalsy, ht])
    | pint n => exact absurd h1 (by simp [listOfDictsOrFalsy, ht])
    | pnum q => exact absurd h1 (by simp [listOfDictsOrFalsy, ht])
    | pstr s => exact absurd h1 (by simp [listOfDictsOrFalsy, ht])
    | pdict d => exact absurd h1 (by simp [listOfDictsOrFalsy, ht])
  · exact ⟨[], by rw [pyOr, if_neg ht], by simp, by simp⟩

theorem liOk_parts {li : PyVal} (h : liOk li = true) :
    pyHashable (dFld li "sku" .pnone) = true ∧
    eOk (pyIntE (pyOr (dFld li "quantity" (.pint 0)) (.pint 0))) = true ∧
    (truthy (dFld li "fulfillment_status" .pnone) = true →
      isStrV (dFld li "fulfillment_status" .pnone) = true) := by
  rw [liOk] at h
  simp only [Bool.and_eq_true] at h
  refine ⟨h.1, h.2.1, ?_⟩
  intro ht
  have h3 := h.2.2
  rw [ht] at h3
  simpa using h3

theorem eMapM_dFld (k : String) (d : PyVal) (xs : List PyVal)
    (h : ∀ x ∈ xs, isDictB x = true) :
    eMapM (fun li => pyGetE li k d) xs = .ok (xs.map fun li => dFld li k d) := by
  induction xs with
  | nil => rfl
  | cons x xs' ih =>
    rw [eMapM, List.map_cons]
    rw [pyGetE_dictB k d (h x (List.mem_cons_self ..))]
    simp only [ih (fun y hy => h y (List.mem_cons_of_mem _ hy))]

theorem eMapM_ok_exists {f : α → Except String β} {xs : List α}
    (h : ∀ x ∈ xs, eOk (f x) = true) : ∃ ys, eMapM f xs = .ok ys := by
  induction xs with
  | nil => exact ⟨[], rfl⟩
  | cons x xs' ih =>
    obtain ⟨y, hy⟩ := exists_ok_of_eOk (h x (List.mem_cons_self ..))
    obtain ⟨ys, hys⟩ := ih (fun z hz => h z (List.mem_cons_of_mem _ hz))
    refine ⟨y :: ys, ?_⟩
    rw [eMapM, hy]
    simp only [hys]

theorem strV_hashable {x : PyVal} (h : isStrV x = true) : pyHashable x = true := by
  cases x <;> first
    | rfl
    | simp [isStrV] at h

theorem dedupAux_sub {x : PyVal} :
    ∀ (seen xs : List PyVal), x ∈ dedupAux seen xs → x ∈ xs := by
  intro seen xs
  induction xs generalizing seen with
  | nil => intro h; exact absurd h (List.not_mem_nil x)
  | cons y ys ih =>
    intro h
    rw [dedupAux] at h
    by_cases hy : (seen.any fun z => pyScalarEq z y) = true
    · rw [if_pos hy] at h
      exact List.mem_cons_of_mem _ (ih _ h)
    · rw [if_neg hy] at h
      rcases List.mem_cons.mp h with rfl | h2
      · exact List.mem_cons_self ..
      · exact List.mem_cons_of_mem _ (ih _ h2)

theorem pySetList_ok (xs : List PyVal) (h : ∀ x ∈ xs, pyHashable x = true) :
    pySetList xs = .ok (dedupAux [] xs) := by
  rw [pySetList, if_pos (List.all_eq_true.mpr h)]

theorem pySortedE_str (xs : List PyVal) (h : ∀ x ∈ xs, isStrV x = true) :
    ∃ ys, pySortedE xs = .ok ys ∧ ∀ y ∈ ys, isStrV y = true := by
  cases xs with
  | nil => exact ⟨[], rfl, by simp⟩
  | cons x tl =>
    cases tl with
    | nil =>
      refine ⟨[x], rfl, ?_⟩
      intro y hy
      rcases List.mem_cons.mp hy with rfl | h2
      · exact h y (List.mem_cons_self ..)
      · exact absurd h2 (List.not_mem_nil y)
    | cons z tl2 =>
      have heq : pySortedE (x :: z :: tl2) =
          (if (x :: z :: tl2).all isStrV = true then
            .ok ((insSort strLe ((x :: z :: tl2).map strOf)).map .pstr)
          else if (x :: z :: tl2).all (fun v => (asNumQ v).isSome) = true then
            .ok (insSort (fun a b => (asNumQ a).getD 0 ≤ (asNumQ b).getD 0)
              (x :: z :: tl2))
          else .error "TypeError: unorderable types in sorted()") := rfl
      rw [heq, if_pos (List.all_eq_true.mpr h)]
      refine ⟨_, rfl, ?_⟩
      intro y hy
      obtain ⟨s, _, rfl⟩ := List.mem_map.mp hy
      rfl

theorem pyJoinE_ok (sep : String) (xs : List PyVal)
    (h : ∀ x ∈ xs, isStrV x = true) :
    pyJoinE sep xs = .ok (String.intercalate sep (xs.map strOf)) := by
  rw [pyJoinE, if_pos (List.all_eq_true.mpr h)]

theorem statuses_chain_ok (sts : List PyVal) (h : ∀ x ∈ sts, isStrV x = true) :
    eOk (if sts.isEmpty = true then (Except.ok "" : Except String String)
      else ebind (pySetList sts) fun st1 => ebind (pySortedE st1) fun st2 =>
        pyJoinE ", " st2) = true := by
  by_cases he : sts.isEmpty = true
  · rw [if_pos he]; rfl
  · rw [if_neg he, pySetList_ok sts (fun x hx => strV_hashable (h x hx)), ebind_ok]
    obtain ⟨ys, hys, hstr⟩ :=
      pySortedE_str _ (fun x hx => h x (dedupAux_sub _ _ hx))
    rw [hys, ebind_ok, pyJoinE_ok _ _ hstr]
    rfl

theorem shipMethod_ok {v : PyVal} (h : shipLinesOk v = true) :
    eOk (if truthy (pyOr v (.plist [])) = true then
        ebind (pyIndex0 (pyOr v (.plist []))) fun first =>
          pyGetE first "title" .pnone
      else .ok (.pstr "")) = true := by
  by_cases ht : truthy v = true
  · have hv : pyOr v (.plist []) = v := by rw [pyOr, if_pos ht]
    rw [hv, if_pos ht]
    cases v with
    | plist xs =>
      cases xs with
      | nil => exact absurd ht (by decide)
      | cons x tl =>
        have hx : isDictB x = true := h
        rw [show pyIndex0 (PyVal.plist (x :: tl)) = .ok x from rfl, ebind_ok,
          pyGetE_dictB _ _ hx]
        rfl
    | pnone => exact absurd h (by simp [shipLinesOk, ht])
    | pbool b => exact absurd h (by simp [shipLinesOk, ht])
    | pint n => exact absurd h (by simp [shipLinesOk, ht])
    | pnum q => exact absurd h (by simp [shipLinesOk, ht])
    | pstr s => exact absurd h (by simp [shipLinesOk, ht])
    | pdict d => exact absurd h (by simp [shipLinesOk, ht])
  · have hv : pyOr v (.plist []) = .plist [] := by rw [pyOr, if_neg ht]
    rw [hv, if_neg (by decide)]
    rfl

theorem shipSet_elim {v : PyVal} (h : shipSetOk v = true) :
    ∃ m, pyGetE (pyOr v (.pdict [])) "shop_money" (.pdict []) = .ok m ∧
      isDictB m = true := by
  by_cases ht : truthy v = true
  · cases v with
    | pdict sd =>
      have hv : pyOr (PyVal.pdict sd) (.pdict []) = .pdict sd := by
        rw [pyOr, if_pos ht]
      exact ⟨(dictGet sd "shop_money").getD (.pdict []), by rw [hv]; rfl, h⟩
    | pnone => exact absurd h (by simp [shipSetOk, ht])
    | pbool b => exact absurd h (by simp [shipSetOk, ht])
    | pint n => exact absurd h (by simp [shipSetOk, ht])
    | pnum q => exact absurd h (by simp [shipSetOk, ht])
    | pstr s => exact absurd h (by simp [shipSetOk, ht])
    | plist xs => exact absurd h (by simp [shipSetOk, ht])
  · have hv : pyOr v (.pdict []) = .pdict [] := by rw [pyOr, if_neg ht]
    exact ⟨.pdict [], by rw [hv]; rfl, rfl⟩

theorem traceFold_ok (xs : List PyVal) (h : ∀ x ∈ xs, isDictB x = true) :
    ∀ tr, eOk (traceFold tr xs) = true := by
  induction xs with
  | nil => intro tr; rfl
  | cons a rest ih =>
    intro tr
    have ha := h a (List.mem_cons_self ..)
    cases a with
    | pdict ad =>
      rw [traceFold, show traceStep tr (.pdict ad) = .ok (traceApply tr ad) from rfl]
      exact ih (fun y hy => h y (List.mem_cons_of_mem _ hy)) _
    | pnone => simp [isDictB] at ha
    | pbool b => simp [isDictB] at ha
    | pint n => simp [isDictB] at ha
    | pnum q => simp [isDictB] at ha
    | pstr s => simp [isDictB] at ha
    | plist l => simp [isDictB] at ha

theorem extract_ok {v : PyVal} (h : listOfDictsOrFalsy v = true) :
    eOk (extract_traceability (pyOr v (.plist []))) = true := by
  by_cases ht : truthy v = true
  · have hv : pyOr v (.plist []) = v := by rw [pyOr, if_pos ht]
    rw [hv]
    cases v with
    | plist xs =>
      rw [extract_traceability, if_neg (by simp [ht]),
        show pyIterE (PyVal.plist xs) = .ok xs from rfl]
      exact traceFold_ok xs (List.all_eq_true.mp h) emptyTrace
    | pnone => exact absurd h (by simp [listOfDictsOrFalsy, ht])
    | pbool b => exact absurd h (by simp [listOfDictsOrFalsy, ht])
    | pint n => exact absurd h (by simp [listOfDictsOrFalsy, ht])
    | pnum q => exact absurd h (by simp [listOfDictsOrFalsy, ht])
    | pstr s => exact absurd h (by simp [listOfDictsOrFalsy, ht])
    | pdict d => exact absurd h (by simp [listOfDictsOrFalsy, ht])
  · have hv : pyOr v (.plist []) = .plist [] := by rw [pyOr, if_neg ht]
    rw [hv]
    rfl

theorem fulfRec_dict {f : PyVal} (h : fulfRecOk f = true) : isDictB f = true := by
  cases f <;> first
    | rfl
    | simp [fulfRecOk] at h

theorem fulfRec_created {f : PyVal} (h : fulfRecOk f = true)
    (ht : truthy (dFld f "created_at" .pnone) = true) :
    isStrV (dFld f "created_at" .pnone) = true := by
  cases f with
  | pdict fd =>
    have h2 : (!truthy ((dictGet fd "created_at").getD .pnone) ||
        isStrV ((dictGet fd "created_at").getD .pnone)) = true := h
    have ht2 : truthy ((dictGet fd "created_at").getD .pnone) = true := ht
    rw [ht2] at h2
    simpa using h2
  | pnone => simp [fulfRecOk] at h
  | pbool b => simp [fulfRecOk] at h
  | pint n => simp [fulfRecOk] at h
  | pnum q => simp [fulfRecOk] at h
  | pstr s => simp [fulfRecOk] at h
  | plist l => simp [fulfRecOk] at h

theorem pyMaxE_str_ok (xs : List PyVal) (hne : xs ≠ [])
    (h : ∀ x ∈ xs, isStrV x = true) : eOk (pyMaxE xs) = true := by
  cases xs with
  | nil => exact absurd rfl hne
  | cons x rest =>
    rw [pyMaxE_cons, if_pos (List.all_eq_true.mpr h)]
    rfl

theorem gf_ok (od : List (String × PyVal))
    (h : fulfsOk ((dictGet od "fulfillments").getD .pnone) = true) :
    eOk (get_fulfilled_at (.pdict od)) = true := by
  by_cases ht : truthy ((dictGet od "fulfillments").getD .pnone) = true
  case neg =>
    have hf : truthy ((dictGet od "fulfillments").getD .pnone) = false := by
      cases hvv : truthy ((dictGet od "fulfillments").getD .pnone)
      · rfl
      · exact absurd hvv ht
    rw [gf_falsy od hf]
    rfl
  case pos =>
    rcases hveq : (dictGet od "fulfillments").getD .pnone with _ | b | n | q | s | fs | dd
    case pnone => rw [hveq] at ht; exact absurd ht (by decide)
    case pbool => rw [hveq] at ht h; simp [fulfsOk, ht] at h
    case pint => rw [hveq] at ht h; simp [fulfsOk, ht] at h
    case pnum => rw [hveq] at ht h; simp [fulfsOk, ht] at h
    case pstr => rw [hveq] at ht h; simp [fulfsOk, ht] at h
    case pdict => rw [hveq] at ht h; simp [fulfsOk, ht] at h
    case plist =>
      rw [hveq] at ht h
      have hall : ∀ f ∈ fs, fulfRecOk f = true := List.all_eq_true.mp h
      have hdicts : ∀ f ∈ fs, isDictB f = true :=
        fun f hf => fulfRec_dict (hall f hf)
      have hgete : pyGetE (PyVal.pdict od) "fulfillments" PyVal.pnone =
          .ok ((dictGet od "fulfillments").getD .pnone) := rfl
      have hor : pyOr ((dictGet od "fulfillments").getD .pnone) (.plist []) =
          .plist fs := by
        rw [pyOr, hveq, if_pos ht]
      simp only [get_fulfilled_at, hgete, ebind_ok, hor,
        show truthy (PyVal.plist fs) = true from ht, Bool.not_true,
        Bool.false_eq_true, if_false,
        show pyIterE (PyVal.plist fs) = .ok fs from rfl,
        eMapM_dFld "created_at" PyVal.pnone fs hdicts]
      by_cases he : ((fs.map fun li => dFld li "created_at" .pnone).filter
          truthy).isEmpty = true
      · rw [if_pos he]
        rfl
      · rw [if_neg he]
        apply pyMaxE_str_ok
        · intro hnil
          rw [hnil] at he
          exact he rfl
        · intro x hx
          have hx2 := List.mem_filter.mp hx
          obtain ⟨f, hf, rfl⟩ := List.mem_map.mp hx2.1
          exact fulfRec_created (hall f hf) hx2.2

/-- Under `wellShaped` every partial step of the row mapper succeeds. -/
theorem rowOfOrder_wellShaped (od : List (String × PyVal))
    (h : wellShaped (.pdict od) = true) :
    eOk (rowOfOrder (.pdict od)) = true := by
  rw [wellShaped] at h
  simp only [Bool.and_eq_true] at h
  obtain ⟨hbill, hship, hliShape, hliAll, hsl, hss, hna, hful⟩ := h
  obtain ⟨items, hitems, hdicts, hliOks⟩ := listOrFalsy_elim hliShape hliAll
  rw [rowOfOrder]
  refine eOk_ebind.mpr ⟨_, rfl, ?_⟩
  refine eOk_ebind.mpr ⟨_, rfl, ?_⟩
  refine eOk_ebind.mpr ⟨_, rfl, ?_⟩
  refine eOk_ebind.mpr ⟨items, by rw [hitems]; rfl, ?_⟩
  refine eOk_ebind.mpr ⟨_, eMapM_dFld "sku" .pnone items hdicts, ?_⟩
  refine eOk_ebind.mpr ⟨_, pySetList_ok _ ?_, ?_⟩
  · intro x hx
    have hx2 := List.mem_filter.mp hx
    obtain ⟨li, hli, rfl⟩ := List.mem_map.mp hx2.1
    exact (liOk_parts (hliOks li hli)).1
  have hq_all : ∀ li ∈ items,
      eOk (ebind (pyGetE li "quantity" (.pint 0)) fun q =>
        pyIntE (pyOr q (.pint 0))) = true := by
    intro li hli
    rw [pyGetE_dictB _ _ (hdicts li hli), ebind_ok]
    exact (liOk_parts (hliOks li hli)).2.1
  obtain ⟨qs, hqs⟩ := eMapM_ok_exists hq_all
  refine eOk_ebind.mpr ⟨qs, hqs, ?_⟩
  refine eOk_ebind.mpr ⟨_, eMapM_dFld "fulfillment_status" .pnone items hdicts, ?_⟩
  have hst_all : ∀ x ∈ (items.map fun li =>
      dFld li "fulfillment_status" .pnone).filter truthy, isStrV x = true := by
    intro x hx
    have hx2 := List.mem_filter.mp hx
    obtain ⟨li, hli, rfl⟩ := List.mem_map.mp hx2.1
    exact (liOk_parts (hliOks li hli)).2.2 hx2.2
  obtain ⟨lf, hlf⟩ := exists_ok_of_eOk (statuses_chain_ok _ hst_all)
  refine eOk_ebind.mpr ⟨lf, hlf, ?_⟩
  refine eOk_ebind.mpr ⟨_, eMapM_dFld "requires_shipping" .pnone items hdicts, ?_⟩
  refine eOk_ebind.mpr ⟨_, rfl, ?_⟩
  obtain ⟨sm, hsm⟩ := exists_ok_of_eOk (shipMethod_ok hsl)
  refine eOk_ebind.mpr ⟨sm, hsm, ?_⟩
  refine eOk_ebind.mpr ⟨_, rfl, ?_⟩
  obtain ⟨tr, htr2⟩ := exists_ok_of_eOk (extract_ok hna)
  refine eOk_ebind.mpr ⟨tr, htr2, ?_⟩
  refine eOk_ebind.mpr ⟨_, rfl, ?_⟩
  refine eOk_ebind.mpr ⟨_, rfl, ?_⟩
  refine eOk_ebind.mpr ⟨_, rfl, ?_⟩
  refine eOk_ebind.mpr ⟨_, rfl, ?_⟩
  refine eOk_ebind.mpr ⟨_, rfl, ?_⟩
  refine eOk_ebind.mpr ⟨_, rfl, ?_⟩
  refine eOk_ebind.mpr ⟨_, rfl, ?_⟩
  obtain ⟨fv, hfv⟩ := exists_ok_of_eOk (gf_ok od hful)
  refine eOk_ebind.mpr ⟨fv, hfv, ?_⟩
  refine eOk_ebind.mpr ⟨_, rfl, ?_⟩
  refine eOk_ebind.mpr ⟨_, rfl, ?_⟩
  obtain ⟨money, hmoney, hmoneyd⟩ := shipSet_elim hss
  refine eOk_ebind.mpr ⟨money, hmoney, ?_⟩
  refine eOk_ebind.mpr ⟨_, pyGetE_dictB _ _ hmoneyd, ?_⟩
  refine eOk_ebind.mpr ⟨_, rfl, ?_⟩
  refine eOk_ebind.mpr ⟨_, rfl, ?_⟩
  obtain ⟨bd, hbd⟩ := orDict hbill
  refine eOk_ebind.mpr ⟨_, by rw [hbd]; rfl, ?_⟩
  refine eOk_ebind.mpr ⟨_, by rw [hbd]; rfl, ?_⟩
  obtain ⟨sd, hsd⟩ := orDict hship
  refine eOk_ebind.mpr ⟨_, by rw [hsd]; rfl, ?_⟩
  refine eOk_ebind.mpr ⟨_, rfl, ?_⟩
  refine eOk_ebind.mpr ⟨_, rfl, ?_⟩
  rfl

/-- C1 (amended): the row mapper never raises on orders of the expected
JSON shapes — all monetary, timestamp and note-attribute coercion failures
degrade to safe defaults — but it is *not* exception-free on arbitrary
JSON-like dicts: a non-numeric line-item quantity string (see the
counterexample) raises `ValueError` out of `orders_to_rows`. -/
theorem claim_C1 :
    ∀ o : PyVal, wellShaped o = true → ∃ row, orders_to_rows [o] = .ok [row] := by
  intro o h
  cases o with
  | pdict od =>
    obtain ⟨r, hr⟩ := exists_ok_of_eOk (rowOfOrder_wellShaped od h)
    refine ⟨r, ?_⟩
    rw [orders_to_rows, eMapM, hr]
    rfl
  | pnone => simp [wellShaped] at h
  | pbool b => simp [wellShaped] at h
  | pint n => simp [wellShaped] at h
  | pnum q => simp [wellShaped] at h
  | pstr s => simp [wellShaped] at h
  | plist l => simp [wellShaped] at h

/-- Counterexample to C1 as stated: a line item whose `quantity` is the
string `"abc"` makes `int()` raise, and `orders_to_rows` propagates it. -/
theorem claim_C1_cex :
    orders_to_rows [.pdict [("line_items", .plist [.pdict [("quantity", .pstr "abc")]])]] =
      .error "ValueError: invalid literal for int()" := rfl

/-- Witness for C1: a well-shaped order with malformed money and date
strings still yields a row. -/
theorem claim_C1_witness :
    ∃ row, orders_to_rows [.pdict
      [("id", .pint 5), ("created_at", .pstr "garbage-date"),
       ("subtotal_price", .pstr "not-a-number"),
       ("line_items", .plist [.pdict [("sku", .pstr "A"),
         ("quantity", .pstr "2"), ("fulfillment_status", .pstr "fulfilled")]]),
       ("billing_address", .pnone),
       ("total_shipping_price_set", .pdict [("shop_money",
         .pdict [("amount", .pstr "19,99")])]),
       ("fulfillments", .plist [.pdict [("created_at",
         .pstr "2024-01-05T10:00:00Z")]]),
       ("note_attributes", .plist [.pdict [("name", .pstr "Embalado"),
         ("value", .pstr "bad-stamp")]])]] = .ok [row] :=
  claim_C1 _ (by decide)

end RefreshSheet
